import Mathlib

/-!
Verification of the jira-export-masseur rewrite engine and orchestration
(`src/jira_export/masseur.py`), shallowly embedded in Lean.

Strings are modelled as `List Char`.  `re.sub(pat, rep, s)` for the literal
patterns used by the code is modelled by `replaceAll`, leftmost
non-overlapping replacement.  XML documents are modelled as rooted trees
(`XTree`) of elements with a tag, an attribute list, direct text content and
children; parsing and serialization by lxml are external collaborators, so
the engine is verified at the tree level plus the raw-text sentinel passes
that the source applies before parsing and after serialization.
-/

/-- Python strings are modelled as lists of characters. -/
abbrev Str := List Char

/-- Convert a Lean string literal to the `Str` model. -/
def s2l (s : String) : Str := s.data

/-- `isPre pat s` holds when `pat` is a prefix of `s`. -/
def isPre : Str → Str → Bool
  | [], _ => true
  | _ :: _, [] => false
  | a :: x, b :: y => if a = b then isPre x y else false

/-- Fuel-driven worker for `replaceAll`; the fuel is an upper bound on the
length of the remaining input, so the recursion is structural. -/
def replGo (pat rep : Str) : Nat → Str → Str
  | _, [] => []
  | 0, c :: s => c :: s
  | f + 1, c :: s =>
    if pat ≠ [] ∧ isPre pat (c :: s) = true then
      rep ++ replGo pat rep f (List.drop (pat.length - 1) s)
    else
      c :: replGo pat rep f s

/-- Model of `re.sub(pat, rep, s)` for a non-empty literal pattern `pat`:
replace every leftmost non-overlapping occurrence of `pat` in `s` by `rep`.
All patterns interpolated by the source (` user `, form feed, carriage
return, the three sentinels, the single quote, `\.zip`, `\.xml`, `--><`)
are taken literally; usernames containing regex metacharacters would be
interpreted as regex syntax by `re.sub` and are outside this model. -/
def replaceAll (pat rep s : Str) : Str := replGo pat rep s.length s

/-- Character-wise expansion of a string (each character maps to a string). -/
def expand (f : Char → Str) : Str → Str
  | [] => []
  | c :: s => f c ++ expand f s

/-- `hasSub pat s` holds when `pat` occurs as a contiguous substring of `s`. -/
def hasSub (pat : Str) : Str → Bool
  | [] => pat.isEmpty
  | c :: s => isPre pat (c :: s) || hasSub pat s

/-- `spanFree pat y = true` when no proper suffix of `pat` (obtained by
dropping `k > 0` leading characters) is a prefix of `y`; this rules out
matches spanning the boundary of an append whose right part is `y`. -/
def spanFree (pat y : Str) : Bool :=
  (List.range pat.length).all fun k => k = 0 || !(isPre (List.drop k pat) y)

/-- Form feed, `\x0c` (line 169 of masseur.py). -/
def ffC : Char := Char.ofNat 12

/-- Carriage return, `\x0d` (line 170). -/
def crC : Char := Char.ofNat 13

/-- Sentinel `☢` standing for a form feed while the document is parsed. -/
def sentA : Char := Char.ofNat 0x2622

/-- Sentinel `☣` standing for a carriage return. -/
def sentB : Char := Char.ofNat 0x2623

/-- Sentinel `☤` standing for a single quote in protected attributes. -/
def sentC : Char := Char.ofNat 0x2624

/-- The single-quote character. -/
def qC : Char := Char.ofNat 39

/-- The five-character XML apostrophe entity text `&apos;`. -/
def aposE : Str := s2l "&apos;"

/-- Lines 169-170 of `update_entities`: before parsing, replace every literal
form feed by sentinel A, then every literal carriage return by sentinel B. -/
def sentinelEncode (s : Str) : Str :=
  replaceAll [crC] [sentB] (replaceAll [ffC] [sentA] s)

/-- Lines 210-212 of `update_entities`: after serialization, replace sentinel
A back to a form feed, sentinel B back to a carriage return, and sentinel C
by the entity text `&apos;`. -/
def sentinelDecode (s : Str) : Str :=
  replaceAll [sentC] aposE (replaceAll [sentB] [crC] (replaceAll [sentA] [ffC] s))

/-- Line 213 of `update_entities`: cosmetic pass inserting a newline between
a comment end and an immediately following opening angle bracket. -/
def commentFix (s : Str) : Str := replaceAll (s2l "--><") (s2l "-->\n<") s

/-- The user-name transition mapping `{old: new}`, in insertion order (Python
dicts iterate in insertion order). -/
abbrev UserNameMap := List (Str × Str)

/-- Dictionary lookup `m[k]` / `k in m.keys()` (keys of a Python dict are
distinct, so first-match lookup is exact). -/
def lookupU : UserNameMap → Str → Option Str
  | [], _ => none
  | p :: m, k => if p.1 = k then some p.2 else lookupU m k

/-- The identity mapping on the keys of `m` (each key mapped to itself). -/
def idOf (m : UserNameMap) : UserNameMap := m.map fun p => (p.1, p.1)

/-- The pattern ` u ` used at lines 163-165: a single space, the name, a
single space. -/
def spTok (u : Str) : Str := ' ' :: (u ++ [' '])

/-- The inner loop of `update_entities._update_attributes` (lines 159-165)
acting on one attribute value: for every entry `old -> new` of the map in
iteration order, if the current value is exactly `old` replace it wholesale
by `new`, otherwise replace every ` old ` token by ` new `. -/
def applyMapVal (m : UserNameMap) (v : Str) : Str :=
  m.foldl (fun v p => if v = p.1 then p.2 else replaceAll (spTok p.1) (spTok p.2) v) v

/-- Line 207: replace every literal single quote in a protected attribute
value by sentinel C. -/
def quoteEnc (v : Str) : Str := replaceAll [qC] [sentC] v

/- XML element tree: tag, attribute list (names are unique in XML), direct
text content (empty string models lxml `None`), children. -/
mutual
inductive XTree : Type where
  | el : Str → List (Str × Str) → Str → XForest → XTree
inductive XForest : Type where
  | fnil : XForest
  | fcons : XTree → XForest → XForest
end

def tagOf : XTree → Str
  | .el tg _ _ _ => tg

def attrsOf : XTree → List (Str × Str)
  | .el _ a _ _ => a

def textOf : XTree → Str
  | .el _ _ x _ => x

def kidsOf : XTree → XForest
  | .el _ _ _ cs => cs

/-- First-match attribute lookup (attribute names are unique in XML). -/
def lookA : List (Str × Str) → Str → Option Str
  | [], _ => none
  | kv :: a, n => if kv.1 = n then some kv.2 else lookA a n

/-- `elem.get(n)` / `elem.attrib[n]`. -/
def attrOf (e : XTree) (n : Str) : Option Str := lookA (attrsOf e) n

/- every node of a forest, each followed by its descendants. -/
mutual
def nodesOf : XTree → List XTree
  | .el tg a x cs => .el tg a x cs :: nodesForest cs
def nodesForest : XForest → List XTree
  | .fnil => []
  | .fcons t ts => nodesOf t ++ nodesForest ts
end

/-- The elements found by `findall('.//...')`: all

elements strictly below the document root (ElementPath `.//` never matches
the root element itself). -/
def descNodes : XTree → List XTree
  | .el _ _ _ cs => nodesForest cs

/-- The six element tags rewritten by `update_config` (line 142). -/
def configTags : List Str :=
  [s2l "administratorUser", s2l "author", s2l "lead", s2l "memberUser",
   s2l "owner", s2l "username"]

/-- Lines 136-138: if the element text is a key of the map, replace it by the
mapped value, otherwise leave it. -/
def cfgText (m : UserNameMap) (x : Str) : Str :=
  match lookupU m x with
  | some v => v
  | none => x

mutual
def cfgNodePass (m : UserNameMap) (n : Str) : XTree → XTree
  | .el tg a x cs => .el tg a (if tg = n then cfgText m x else x) (cfgForestPass m n cs)
def cfgForestPass (m : UserNameMap) (n : Str) : XForest → XForest
  | .fnil => .fnil
  | .fcons t ts => .fcons (cfgNodePass m n t) (cfgForestPass m n ts)
end

/-- One `_update_children(config, n)` call (lines 134-138): rewrite the text
of every element with tag `n` strictly below the root. -/
def cfgRootPass (m : UserNameMap) (n : Str) : XTree → XTree
  | .el tg a x cs => .el tg a x (cfgForestPass m n cs)

/-- The tree transformation of `update_config` (lines 140-143): one
`_update_children` pass per tag in `configTags`, in order. -/
def updateConfigTree (m : UserNameMap) (t : XTree) : XTree :=
  configTags.foldl (fun t n => cfgRootPass m n t) t

mutual
def cfgSimulNode (m : UserNameMap) (tags : List Str) : XTree → XTree
  | .el tg a x cs =>
    .el tg a (if tg ∈ tags then cfgText m x else x) (cfgSimulForest m tags cs)
def cfgSimulForest (m : UserNameMap) (tags : List Str) : XForest → XForest
  | .fnil => .fnil
  | .fcons t ts => .fcons (cfgSimulNode m tags t) (cfgSimulForest m tags ts)
end

def cfgSimulRoot (m : UserNameMap) (tags : List Str) : XTree → XTree
  | .el tg a x cs => .el tg a x (cfgSimulForest m tags cs)

/-- The config rewrite as the specification words it: in a single traversal,
every element below the root whose tag is one of the six fixed names and
whose text equals a key of the map gets the mapped value as text; everything
else (attributes, structure, other text) is unchanged. -/
def specConfigRewrite (m : UserNameMap) : XTree → XTree
  | .el tg a x cs => .el tg a x (cfgSimulForest m configTags cs)

/-- Update the entry for attribute `n`, applying `f` to its value. -/
def updAttrs (f : Str → Str) (n : Str) (attrs : List (Str × Str)) : List (Str × Str) :=
  attrs.map fun kv => if kv.1 = n then (kv.1, f kv.2) else kv

mutual
def attrNodePass (f : Str → Str) (n : Str) : XTree → XTree
  | .el tg a x cs => .el tg (updAttrs f n a) x (attrForestPass f n cs)
def attrForestPass (f : Str → Str) (n : Str) : XForest → XForest
  | .fnil => .fnil
  | .fcons t ts => .fcons (attrNodePass f n t) (attrForestPass f n ts)
end

/-- One `findall('.//*[@n]')` pass (lines 158, 206): apply `f` to the value
of attribute `n` on every element carrying it strictly below the root. -/
def attrRootPass (f : Str → Str) (n : Str) : XTree → XTree
  | .el tg a x cs => .el tg a x (attrForestPass f n cs)

/-- Sequential per-attribute-name passes, in list order. -/
def namesRootPass (f : Str → Str) (names : List Str) (t : XTree) : XTree :=
  names.foldl (fun t n => attrRootPass f n t) t

/-- Simultaneous single-traversal counterpart of `namesRootPass`. -/
def updAttrsSimul (f : Str → Str) (names : List Str) (attrs : List (Str × Str)) :
    List (Str × Str) :=
  attrs.map fun kv => if kv.1 ∈ names then (kv.1, f kv.2) else kv

mutual
def simulNode (f : Str → Str) (names : List Str) : XTree → XTree
  | .el tg a x cs => .el tg (updAttrsSimul f names a) x (simulForest f names cs)
def simulForest (f : Str → Str) (names : List Str) : XForest → XForest
  | .fnil => .fnil
  | .fcons t ts => .fcons (simulNode f names t) (simulForest f names ts)
end

def simulRoot (f : Str → Str) (names : List Str) : XTree → XTree
  | .el tg a x cs => .el tg a x (simulForest f names cs)

/-- The nineteen attribute names of the first `update_entities` loop
(lines 174-192; the specification calls this the "eighteen-name list" but
enumerates these nineteen names). -/
def attrNames : List Str :=
  [s2l "author", s2l "authorKey", s2l "caller", s2l "creator", s2l "deltaFrom",
   s2l "deltaTo", s2l "entityId", s2l "lead", s2l "lowerChildName",
   s2l "lowerUserName", s2l "newvalue", s2l "objectName", s2l "oldvalue",
   s2l "owner", s2l "roletypeparameter", s2l "sourceName", s2l "updateauthor",
   s2l "user", s2l "username"]

/-- The twelve protected attribute names of the second `update_entities`
loop (lines 194-205). -/
def protNames : List Str :=
  [s2l "author", s2l "body", s2l "data", s2l "deltaTo", s2l "description",
   s2l "infoMessage", s2l "name", s2l "newstring", s2l "oldstring",
   s2l "searchField", s2l "summary", s2l "title"]

/-- The first loop of `update_entities` (lines 174-193): one
`_update_attributes` pass per name in `attrNames`, in order. -/
def updateEntitiesAttrPass (m : UserNameMap) (t : XTree) : XTree :=
  namesRootPass (applyMapVal m) attrNames t

/-- The second loop of `update_entities` (lines 194-207): replace single
quotes by sentinel C in every protected attribute below the root. -/
def quotePassTree (t : XTree) : XTree :=
  namesRootPass quoteEnc protNames t

/-- The complete tree transformation of `update_entities` (between parsing
and serialization): the username attribute pass followed by the
quote-protection pass. -/
def updateEntitiesTree (m : UserNameMap) (t : XTree) : XTree :=
  quotePassTree (updateEntitiesAttrPass m t)

/-- The entities attribute rewrite as the specification words it: one
traversal; on every element below the root, every attribute in the fixed
name list gets `applyMapVal` (exact match replaced wholesale, otherwise
space-delimited tokens replaced), all in map-iteration order. -/
def specEntitiesAttrRewrite (m : UserNameMap) (t : XTree) : XTree :=
  simulRoot (applyMapVal m) attrNames t

/-- A file value: opaque bytes, a parsed-XML payload (parsing and
serialization are external to the model), or a zip archive holding named
members. -/
inductive FVal : Type where
  | txt : Str → FVal
  | xmlF : XTree → FVal
  | zipA : List (Str × FVal) → FVal

/-- The file system: an association list from absolute path to file value
(directories are implicit; the key set is kept duplicate-free by `setF`). -/
abbrev FS := List (Str × FVal)

def getF : FS → Str → Option FVal
  | [], _ => none
  | e :: fs, p => if e.1 = p then some e.2 else getF fs p

def eraseF : FS → Str → FS
  | [], _ => []
  | e :: fs, q => if e.1 = q then eraseF fs q else e :: eraseF fs q

/-- Create or overwrite the file at `p`. -/
def setF (fs : FS) (p : Str) (v : FVal) : FS := (p, v) :: eraseF fs p

/-- Errors of the pipeline, named after the specification's error kinds. -/
inductive MErr : Type where
  | archiveFormat : MErr
  | badXml : MErr
  | archiveWrite : MErr

/-- Pipeline results: either the file system after the operation, or an
error paired with the file system at the moment the operation aborted. -/
abbrev MRes := Except (MErr × FS) FS

/-- `self._config_xml_path`. -/
def configPath (w : Str) : Str := w ++ s2l "/config.xml"

/-- `self._data_zip_path`; `data_path('/data.zip')` produces
`<w>/data//data.zip`, which the OS resolves to this normalized path. -/
def dataZipPath (w : Str) : Str := w ++ s2l "/data/data.zip"

/-- `self._objects_xml_path` (normalized as above). -/
def objectsPath (w : Str) : Str := w ++ s2l "/data/activeobjects.xml"

/-- `self._entities_xml_path` (normalized as above). -/
def entitiesPath (w : Str) : Str := w ++ s2l "/data/entities.xml"

/-- `_prepare_output_path` (lines 62-71): the identity unless debug mode is
active, in which case `.xml` is rewritten to `.proc.xml`. -/
def prepOut (debug : Bool) (path : Str) : Str :=
  if debug then replaceAll (s2l ".xml") (s2l ".proc.xml") path else path

/-- `ZipFile.extractall(dest)`: write every member under `dest`, in member
order (later members overwrite earlier ones with the same name). -/
def extractAll (dest : Str) (members : List (Str × FVal)) (fs : FS) : FS :=
  members.foldl (fun fs e => setF fs (dest ++ s2l "/" ++ e.1) e.2) fs

/-- `unpack` (lines 114-124): extract the outer archive into the workspace,
then extract the nested data archive into the data directory.  A missing or
non-archive input or nested member aborts with a format error (Python
surfaces this as a `BadZipFile`/`FileNotFoundError`; the specification calls
it `ArchiveFormatError`). -/
def unpackM (w p : Str) (fs : FS) : MRes :=
  match getF fs p with
  | some (FVal.zipA ms) =>
    let fs1 := extractAll w ms fs
    match getF fs1 (dataZipPath w) with
    | some (FVal.zipA dms) => .ok (extractAll (w ++ s2l "/data") dms fs1)
    | _ => .error (MErr.archiveFormat, fs1)
  | _ => .error (MErr.archiveFormat, fs)

/-- `update_config` at the file level: read the parsed document at `inP`,
rewrite it with `updateConfigTree`, write the result to `outP`. -/
def updateConfigFS (m : UserNameMap) (inP outP : Str) (fs : FS) : MRes :=
  match getF fs inP with
  | some (FVal.xmlF t) => .ok (setF fs outP (FVal.xmlF (updateConfigTree m t)))
  | _ => .error (MErr.badXml, fs)

/-- `update_entities` at the file level: read the parsed document at `inP`,
rewrite it with `updateEntitiesTree`, write the result to `outP` (the
sentinel encode/decode raw-text passes around parsing and serialization are
verified separately at the string level). -/
def updateEntitiesFS (m : UserNameMap) (inP outP : Str) (fs : FS) : MRes :=
  match getF fs inP with
  | some (FVal.xmlF t) => .ok (setF fs outP (FVal.xmlF (updateEntitiesTree m t)))
  | _ => .error (MErr.badXml, fs)

/-- `shutil.make_archive(out, 'zip', w)`: the members of the new archive are
all files under the workspace, named relative to it. -/
def makeArchiveMembers (w : Str) (fs : FS) : List (Str × FVal) :=
  fs.filterMap fun e =>
    if isPre (w ++ s2l "/") e.1 = true
    then some (List.drop (w ++ s2l "/").length e.1, e.2)
    else none

/-- `pack` (lines 101-111): write a fresh nested `data.zip` holding
`activeobjects.xml` and the processed `entities.xml`, unlink the two
standalone copies, then create the outer archive, whose path is the input
path with every `.zip` occurrence replaced by `.fixed_users` plus the `.zip`
appended by `make_archive`. -/
def packM (debug : Bool) (w p : Str) (fs : FS) : MRes :=
  let entOut := prepOut debug (entitiesPath w)
  match getF fs (objectsPath w), getF fs entOut with
  | some ao, some ent =>
    let fs1 := setF fs (dataZipPath w)
      (FVal.zipA [(s2l "activeobjects.xml", ao), (s2l "entities.xml", ent)])
    let fs2 := eraseF (eraseF fs1 (objectsPath w)) entOut
    let outfile := replaceAll (s2l ".zip") (s2l ".fixed_users") p
    .ok (setF fs2 (outfile ++ s2l ".zip") (FVal.zipA (makeArchiveMembers w fs2)))
  | _, _ => .error (MErr.archiveWrite, fs)

/-- `massage` (lines 85-98): unpack, rewrite config, rewrite entities, and
pack a new archive unless debug mode is active; any failure aborts the
remaining stages (Python exception propagation). -/
def massageM (m : UserNameMap) (debug : Bool) (w p : Str) (fs : FS) : MRes :=
  match unpackM w p fs with
  | .error e => .error e
  | .ok fs1 =>
    match updateConfigFS m (configPath w) (prepOut debug (configPath w)) fs1 with
    | .error e => .error e
    | .ok fs2 =>
      match updateEntitiesFS m (entitiesPath w) (prepOut debug (entitiesPath w)) fs2 with
      | .error e => .error e
      | .ok fs3 => if debug then .ok fs3 else packM debug w p fs3

/-- `__exit__` (lines 56-59): remove the workspace tree, unless debug mode
requests that it be retained. -/
def exitM (debug : Bool) (w : Str) (fs : FS) : FS :=
  if debug then fs else fs.filter fun e => !(isPre (w ++ s2l "/") e.1)

/-- The attribute value of the first element below the root, if any. -/
def descAttr (t : XTree) (n : Str) : Option Str :=
  match descNodes t with
  | e :: _ => attrOf e n
  | [] => none

/-- The mapping `{alice: bob}`. -/
def mapAB : UserNameMap := [(s2l "alice", s2l "bob")]

/-- A document whose root element itself carries the listed attribute
`author` with value `alice`. -/
def exRootAuthor : XTree :=
  XTree.el (s2l "ProjectRoleActor") [(s2l "author", s2l "alice")] [] XForest.fnil

/-- A config document whose root element itself has tag `username` and text
`alice`. -/
def exRootUser : XTree := XTree.el (s2l "username") [] (s2l "alice") XForest.fnil

/-- The attribute value `a'b` (contains a literal single quote). -/
def qVal : Str := ['a', qC, 'b']

/-- A document whose root element itself carries the protected attribute
`description` with a single quote in the value. -/
def exRootDesc : XTree :=
  XTree.el (s2l "Action") [(s2l "description", qVal)] [] XForest.fnil

/-- A document with one element below the root carrying the protected
attribute `description` with a single quote in the value. -/
def exKidDesc : XTree :=
  XTree.el (s2l "entity-engine-xml") [] []
    (XForest.fcons (XTree.el (s2l "Action") [(s2l "description", qVal)] [] XForest.fnil)
      XForest.fnil)

/-! ### String-level lemmas -/

@[simp]
theorem replGo_nil (pat rep : Str) (f : Nat) : replGo pat rep f [] = [] := by
  cases f <;> rfl

theorem replGo_fuel (pat rep : Str) :
    ∀ f g s, s.length ≤ f → s.length ≤ g →
      replGo pat rep f s = replGo pat rep g s := by
  intro f
  induction f with
  | zero =>
    intro g s hf _
    have : s = [] := List.length_eq_zero.mp (Nat.le_zero.mp hf)
    subst this; simp
  | succ f ih =>
    intro g s hf hg
    cases s with
    | nil => simp
    | cons c s =>
      cases g with
      | zero => exact absurd hg (by simp)
      | succ g =>
        show replGo pat rep (f + 1) (c :: s) = replGo pat rep (g + 1) (c :: s)
        simp only [replGo]
        by_cases h : pat ≠ [] ∧ isPre pat (c :: s) = true
        · simp only [if_pos h]
          have hlen : (List.drop (pat.length - 1) s).length ≤ s.length := by
            simp [List.length_drop]
          have hf' : (List.drop (pat.length - 1) s).length ≤ f := by
            have := Nat.succ_le_succ_iff.mp hf; omega
          have hg' : (List.drop (pat.length - 1) s).length ≤ g := by
            have := Nat.succ_le_succ_iff.mp hg; omega
          rw [ih g _ hf' hg']
        · simp only [if_neg h]
          have hf' : s.length ≤ f := Nat.succ_le_succ_iff.mp hf
          have hg' : s.length ≤ g := Nat.succ_le_succ_iff.mp hg
          rw [ih g s hf' hg']

@[simp]
theorem replaceAll_nil (pat rep : Str) : replaceAll pat rep [] = [] := rfl

theorem replaceAll_pos (pat rep : Str) (c : Char) (s : Str)
    (h1 : pat ≠ []) (h2 : isPre pat (c :: s) = true) :
    replaceAll pat rep (c :: s) =
      rep ++ replaceAll pat rep (List.drop (pat.length - 1) s) := by
  show replGo pat rep (s.length + 1) (c :: s) = _
  simp only [replGo, if_pos (And.intro h1 h2)]
  congr 1
  apply replGo_fuel
  · simp [List.length_drop]
  · exact le_refl _

theorem replaceAll_neg (pat rep : Str) (c : Char) (s : Str)
    (h : ¬(pat ≠ [] ∧ isPre pat (c :: s) = true)) :
    replaceAll pat rep (c :: s) = c :: replaceAll pat rep s := by
  show replGo pat rep (s.length + 1) (c :: s) = _
  simp only [replGo, if_neg h]
  rfl

theorem isPre_single (a c : Char) (s : Str) :
    isPre [a] (c :: s) = true ↔ a = c := by
  simp only [isPre]
  by_cases h : a = c <;> simp [h, isPre]

/-- A single-character pattern is replaced character-wise. -/
theorem replaceAll_single (a : Char) (rep : Str) (s : Str) :
    replaceAll [a] rep s = expand (fun c => if c = a then rep else [c]) s := by
  induction s with
  | nil => simp [expand]
  | cons c s ih =>
    by_cases h : a = c
    · rw [replaceAll_pos [a] rep c s (by simp) ((isPre_single a c s).mpr h)]
      simp only [expand, List.length_singleton, Nat.sub_self, List.drop_zero]
      rw [ih]
      subst h
      simp
    · rw [replaceAll_neg [a] rep c s (by simp [isPre_single, h])]
      simp only [expand]
      rw [ih]
      have : ¬(c = a) := fun hc => h hc.symm
      simp [this]

/-- A single-character pattern with a single-character replacement is a map. -/
theorem replaceAll_single_single (a b : Char) (s : Str) :
    replaceAll [a] [b] s = s.map (fun c => if c = a then b else c) := by
  rw [replaceAll_single]
  induction s with
  | nil => simp [expand]
  | cons c s ih =>
    simp only [expand, List.map_cons, ih]
    by_cases h : c = a <;> simp [h]

theorem replaceAll_not_occ (pat rep s : Str) (h : hasSub pat s = false) :
    replaceAll pat rep s = s := by
  induction s with
  | nil => simp
  | cons c s ih =>
    have h' : isPre pat (c :: s) = false ∧ hasSub pat s = false := by
      have := h
      simp only [hasSub, Bool.or_eq_false_iff] at this
      exact this
    rw [replaceAll_neg pat rep c s (by simp [h'.1]), ih h'.2]

theorem isPre_drop (pat : Str) :
    ∀ t, isPre pat t = true → pat ++ List.drop pat.length t = t := by
  induction pat with
  | nil => intro t _; simp
  | cons a pat ih =>
    intro t ht
    cases t with
    | nil => simp [isPre] at ht
    | cons b s =>
      simp only [isPre] at ht
      by_cases hab : a = b
      · subst hab
        simp only [if_pos rfl] at ht
        simp only [List.cons_append, List.length_cons, List.drop_succ_cons]
        rw [ih s ht]
      · simp [if_neg hab] at ht

/-- Replacing a pattern by itself is the identity. -/
theorem replaceAll_self (pat : Str) (hne : pat ≠ []) :
    ∀ n s, s.length ≤ n → replaceAll pat pat s = s := by
  intro n
  induction n with
  | zero =>
    intro s hs
    have : s = [] := List.length_eq_zero.mp (Nat.le_zero.mp hs)
    subst this; simp
  | succ n ih =>
    intro s hs
    cases s with
    | nil => simp
    | cons c s =>
      by_cases h : isPre pat (c :: s) = true
      · rw [replaceAll_pos pat pat c s hne h]
        have hp : 1 ≤ pat.length := by
          cases pat with
          | nil => exact absurd rfl hne
          | cons a pat' => simp
        have hdrop : List.drop (pat.length - 1) s = List.drop pat.length (c :: s) := by
          cases pat with
          | nil => exact absurd rfl hne
          | cons a pat' => simp
        have hlen : (List.drop pat.length (c :: s)).length ≤ n := by
          simp only [List.length_drop, List.length_cons]
          have := Nat.succ_le_succ_iff.mp hs
          omega
        rw [hdrop, ih _ hlen]
        exact isPre_drop pat (c :: s) h
      · rw [replaceAll_neg pat pat c s (by simp [h])]
        rw [ih s (Nat.succ_le_succ_iff.mp hs)]

theorem isPre_append_split (y : Str) :
    ∀ pat a, isPre pat (a ++ y) = true →
      isPre pat a = true ∨
        (a.length < pat.length ∧ isPre (List.drop a.length pat) y = true) := by
  intro pat a
  induction a generalizing pat with
  | nil =>
    intro h
    cases pat with
    | nil => left; rfl
    | cons d p' => right; exact ⟨by simp, by simpa using h⟩
  | cons c a' ih =>
    intro h
    cases pat with
    | nil => left; rfl
    | cons d p' =>
      simp only [List.cons_append, isPre] at h
      by_cases hdc : d = c
      · subst hdc
        simp only [if_pos rfl] at h
        rcases ih p' h with h1 | ⟨h2, h3⟩
        · left; simp [isPre, h1]
        · right
          refine ⟨by simpa using Nat.succ_lt_succ h2, ?_⟩
          simpa using h3
      · simp [if_neg hdc] at h

theorem hasSub_cons_false (pat : Str) (c : Char) (s : Str)
    (h : hasSub pat (c :: s) = false) :
    isPre pat (c :: s) = false ∧ hasSub pat s = false := by
  simpa only [hasSub, Bool.or_eq_false_iff] using h

/-- Scanning an append whose left part contains no occurrence of the pattern
and whose right part admits no boundary-spanning match leaves the left part
unchanged. -/
theorem replaceAll_append_left (pat rep x y : Str) (_hne : pat ≠ [])
    (hx : hasSub pat x = false) (hy : spanFree pat y = true) :
    replaceAll pat rep (x ++ y) = x ++ replaceAll pat rep y := by
  induction x with
  | nil => simp
  | cons c x' ih =>
    have hx' := hasSub_cons_false pat c x' hx
    have hnp : isPre pat ((c :: x') ++ y) = false := by
      by_contra hcon
      have hpre : isPre pat ((c :: x') ++ y) = true := by
        cases h : isPre pat ((c :: x') ++ y)
        · exact absurd h hcon
        · rfl
      rcases isPre_append_split y pat (c :: x') hpre with h1 | ⟨h2, h3⟩
      · rw [hx'.1] at h1; exact Bool.false_ne_true h1
      · have hk : (c :: x').length ∈ List.range pat.length :=
          List.mem_range.mpr h2
        have := (List.all_eq_true.mp hy) _ hk
        simp only [Bool.or_eq_true, decide_eq_true_eq, Bool.not_eq_true'] at this
        rcases this with h0 | h4
        · simp at h0
        · rw [h4] at h3; exact Bool.false_ne_true h3
    rw [List.cons_append, replaceAll_neg pat rep c (x' ++ y) (by simp [hnp.symm ▸ hnp]; intro _; rw [← List.cons_append]; exact hnp), ih hx'.2]
    rfl

theorem expand_append (f : Char → Str) (s t : Str) :
    expand f (s ++ t) = expand f s ++ expand f t := by
  induction s with
  | nil => simp [expand]
  | cons c s ih => simp [expand, ih]

theorem expand_congr (f g : Char → Str) (s : Str) (h : ∀ c ∈ s, f c = g c) :
    expand f s = expand g s := by
  induction s with
  | nil => rfl
  | cons c s ih =>
    simp only [expand, h c (by simp)]
    rw [ih (fun d hd => h d (by simp [hd]))]

theorem expand_map (f : Char → Str) (g : Char → Char) (s : Str) :
    expand f (s.map g) = expand (fun c => f (g c)) s := by
  induction s with
  | nil => rfl
  | cons c s ih => simp [expand, ih]

theorem mem_expand (f : Char → Str) (s : Str) (c : Char) (h : c ∈ expand f s) :
    ∃ d ∈ s, c ∈ f d := by
  induction s with
  | nil => simp [expand] at h
  | cons d s ih =>
    simp only [expand, List.mem_append] at h
    rcases h with h | h
    · exact ⟨d, by simp, h⟩
    · rcases ih h with ⟨d', hd', hc⟩
      exact ⟨d', by simp [hd'], hc⟩

theorem hasSub_single_false (a : Char) (s : Str) (h : a ∉ s) :
    hasSub [a] s = false := by
  induction s with
  | nil => rfl
  | cons c s ih =>
    have hne : ¬ a = c := fun hac => h (hac ▸ by simp)
    simp only [hasSub, Bool.or_eq_false_iff]
    constructor
    · cases hp : isPre [a] (c :: s)
      · rfl
      · exact absurd ((isPre_single a c s).mp hp) hne
    · exact ih (fun hm => h (by simp [hm]))

/-! ### Sentinel round-trip (update_entities lines 169-170 and 210-212) -/

theorem sentinelEncode_eq_map (s : Str) :
    sentinelEncode s =
      s.map (fun c => if c = crC then sentB else if c = ffC then sentA else c) := by
  unfold sentinelEncode
  rw [replaceAll_single_single, replaceAll_single_single, List.map_map]
  apply List.map_congr_left
  intro c _
  show (if (if c = ffC then sentA else c) = crC then sentB
        else if c = ffC then sentA else c) = _
  by_cases h1 : c = ffC
  · subst h1
    rw [if_pos rfl, if_neg (show ¬ (sentA = crC) by decide),
        if_neg (show ¬ (ffC = crC) by decide)]
  · rw [if_neg h1]

/-- C3: for an entities document text containing literal form-feed and
carriage-return characters and none of the three sentinel code points, the
sentinel encode applied before parsing (lines 169-170) and the sentinel
decode applied after serialization (lines 210-212) compose to the identity,
so those characters are reproduced exactly. -/
theorem claim_C3 (s : Str) (_hff : ffC ∈ s) (_hcr : crC ∈ s)
    (ha : sentA ∉ s) (hb : sentB ∉ s) (hc : sentC ∉ s) :
    sentinelDecode (sentinelEncode s) = s := by
  rw [sentinelEncode_eq_map]
  unfold sentinelDecode
  rw [replaceAll_single_single, replaceAll_single_single, List.map_map, List.map_map]
  have hmap :
      s.map (((fun c => if c = sentB then crC else c) ∘
              (fun c => if c = sentA then ffC else c)) ∘
             (fun c => if c = crC then sentB else if c = ffC then sentA else c)) = s := by
    have : ∀ c ∈ s,
        (((fun c => if c = sentB then crC else c) ∘
          (fun c => if c = sentA then ffC else c)) ∘
         (fun c => if c = crC then sentB else if c = ffC then sentA else c)) c = c := by
      intro c hcm
      show (if (if (if c = crC then sentB else if c = ffC then sentA else c) = sentA
               then ffC
               else if c = crC then sentB else if c = ffC then sentA else c) = sentB
            then crC
            else if (if c = crC then sentB else if c = ffC then sentA else c) = sentA
                 then ffC
                 else if c = crC then sentB else if c = ffC then sentA else c) = c
      by_cases h1 : c = crC
      · subst h1
        rw [if_pos rfl, if_neg (show ¬ (sentB = sentA) by decide), if_pos rfl]
      · rw [if_neg h1]
        by_cases h2 : c = ffC
        · subst h2
          rw [if_pos rfl, if_pos rfl, if_neg (show ¬ (ffC = sentB) by decide)]
        · rw [if_neg h2]
          have hca : ¬ (c = sentA) := fun h => ha (h ▸ hcm)
          have hcb : ¬ (c = sentB) := fun h => hb (h ▸ hcm)
          rw [if_neg hca, if_neg hcb]
    calc s.map _ = s.map id := List.map_congr_left this
    _ = s := List.map_id s
  rw [hmap]
  exact replaceAll_not_occ _ _ s (hasSub_single_false sentC s hc)

/-- Witness for C3 at a concrete document text containing a form feed and a
carriage return. -/
theorem claim_C3_witness :
    sentinelDecode (sentinelEncode [ffC, 'x', crC]) = [ffC, 'x', crC] :=
  claim_C3 [ffC, 'x', crC] (by decide) (by decide) (by decide) (by decide) (by decide)

/-! ### Sequential per-name passes coincide with one simultaneous traversal -/

theorem updAttrsSimul_nil (f : Str → Str) (a : List (Str × Str)) :
    updAttrsSimul f [] a = a := by
  unfold updAttrsSimul
  induction a with
  | nil => rfl
  | cons kv a ih => simp [ih]

mutual
theorem simulNode_nil (f : Str → Str) : ∀ t, simulNode f [] t = t
  | .el tg a x cs => by
    simp only [simulNode, updAttrsSimul_nil, simulForest_nil f cs]
theorem simulForest_nil (f : Str → Str) : ∀ cs, simulForest f [] cs = cs
  | .fnil => rfl
  | .fcons t ts => by
    simp only [simulForest, simulNode_nil f t, simulForest_nil f ts]
end

theorem updAttrsSimul_updAttrs (f : Str → Str) (n : Str) (ns : List Str)
    (h : n ∉ ns) (a : List (Str × Str)) :
    updAttrsSimul f ns (updAttrs f n a) = updAttrsSimul f (n :: ns) a := by
  unfold updAttrs updAttrsSimul
  induction a with
  | nil => rfl
  | cons kv a ih =>
    simp only [List.map_cons, List.map_map] at *
    rw [ih]
    congr 1
    by_cases h1 : kv.1 = n
    · rw [if_pos h1]
      have hmem : kv.1 ∈ n :: ns := by simp [h1]
      have hnot : ¬ ((kv.1, f kv.2).1 ∈ ns) := by simpa [h1] using h
      rw [if_neg hnot, if_pos hmem]
    · rw [if_neg h1]
      by_cases h2 : kv.1 ∈ ns
      · rw [if_pos h2, if_pos (by simp [h2])]
      · rw [if_neg h2, if_neg (by simp [h1, h2])]

mutual
theorem simulNode_pass (f : Str → Str) (n : Str) (ns : List Str) (h : n ∉ ns) :
    ∀ t, simulNode f ns (attrNodePass f n t) = simulNode f (n :: ns) t
  | .el tg a x cs => by
    simp only [attrNodePass, simulNode, simulForest_pass f n ns h cs,
      updAttrsSimul_updAttrs f n ns h a]
theorem simulForest_pass (f : Str → Str) (n : Str) (ns : List Str) (h : n ∉ ns) :
    ∀ cs, simulForest f ns (attrForestPass f n cs) = simulForest f (n :: ns) cs
  | .fnil => rfl
  | .fcons t ts => by
    simp only [attrForestPass, simulForest, simulNode_pass f n ns h t,
      simulForest_pass f n ns h ts]
end

theorem simulRoot_pass (f : Str → Str) (n : Str) (ns : List Str) (h : n ∉ ns)
    (t : XTree) : simulRoot f ns (attrRootPass f n t) = simulRoot f (n :: ns) t := by
  cases t with
  | el tg a x cs =>
    simp only [attrRootPass, simulRoot, simulForest_pass f n ns h cs]

/-- The sequential `findall` passes of the source, one per attribute name,
amount to a single traversal updating every listed attribute of every
element below the root. -/
theorem namesRootPass_eq_simulRoot (f : Str → Str) :
    ∀ ns : List Str, ns.Nodup → ∀ t, namesRootPass f ns t = simulRoot f ns t := by
  intro ns
  induction ns with
  | nil =>
    intro _ t
    cases t with
    | el tg a x cs =>
      show XTree.el tg a x cs = simulRoot f [] (XTree.el tg a x cs)
      simp only [simulRoot, simulForest_nil]
  | cons n ns ih =>
    intro hnd t
    have h1 : n ∉ ns := (List.nodup_cons.mp hnd).1
    have h2 : ns.Nodup := (List.nodup_cons.mp hnd).2
    show namesRootPass f ns (attrRootPass f n t) = _
    rw [ih h2 (attrRootPass f n t), simulRoot_pass f n ns h1 t]

mutual
theorem cfgSimulNode_nil (m : UserNameMap) : ∀ t, cfgSimulNode m [] t = t
  | .el tg a x cs => by
    simp only [cfgSimulNode, List.not_mem_nil, if_false, cfgSimulForest_nil m cs]
theorem cfgSimulForest_nil (m : UserNameMap) : ∀ cs, cfgSimulForest m [] cs = cs
  | .fnil => rfl
  | .fcons t ts => by
    simp only [cfgSimulForest, cfgSimulNode_nil m t, cfgSimulForest_nil m ts]
end

mutual
theorem cfgSimulNode_pass (m : UserNameMap) (n : Str) (ns : List Str) (h : n ∉ ns) :
    ∀ t, cfgSimulNode m ns (cfgNodePass m n t) = cfgSimulNode m (n :: ns) t
  | .el tg a x cs => by
    simp only [cfgNodePass, cfgSimulNode, cfgSimulForest_pass m n ns h cs]
    congr 1
    by_cases h1 : tg = n
    · have hnot : tg ∉ ns := h1 ▸ h
      rw [if_pos h1, if_neg hnot, if_pos (by simp [h1])]
    · rw [if_neg h1]
      by_cases h2 : tg ∈ ns
      · rw [if_pos h2, if_pos (by simp [h2])]
      · rw [if_neg h2, if_neg (by simp [h1, h2])]
theorem cfgSimulForest_pass (m : UserNameMap) (n : Str) (ns : List Str) (h : n ∉ ns) :
    ∀ cs, cfgSimulForest m ns (cfgForestPass m n cs) = cfgSimulForest m (n :: ns) cs
  | .fnil => rfl
  | .fcons t ts => by
    simp only [cfgForestPass, cfgSimulForest, cfgSimulNode_pass m n ns h t,
      cfgSimulForest_pass m n ns h ts]
end

theorem cfgFold_eq_simul (m : UserNameMap) :
    ∀ ns : List Str, ns.Nodup →
      ∀ t, ns.foldl (fun t n => cfgRootPass m n t) t = cfgSimulRoot m ns t := by
  intro ns
  induction ns with
  | nil =>
    intro _ t
    cases t with
    | el tg a x cs =>
      show XTree.el tg a x cs = cfgSimulRoot m [] (XTree.el tg a x cs)
      simp only [cfgSimulRoot, cfgSimulForest_nil]
  | cons n ns ih =>
    intro hnd t
    have h1 : n ∉ ns := (List.nodup_cons.mp hnd).1
    have h2 : ns.Nodup := (List.nodup_cons.mp hnd).2
    show ns.foldl (fun t n => cfgRootPass m n t) (cfgRootPass m n t) = _
    rw [ih h2 (cfgRootPass m n t)]
    cases t with
    | el tg a x cs =>
      simp only [cfgRootPass, cfgSimulRoot, cfgSimulForest_pass m n ns h1 cs]

/-- C2 (amended): `update_config`'s six sequential `_update_children` passes
are exactly the specification's single traversal: every element strictly
below the document root whose tag is one of the six fixed names and whose
text equals a key of the map gets the mapped value as text; all other text,
all attributes, and the sibling/ancestor structure are unchanged.  (The root
element itself is never rewritten, because `findall('.//tag')` matches only
descendants.) -/
theorem claim_C2 (m : UserNameMap) (t : XTree) :
    updateConfigTree m t = specConfigRewrite m t := by
  have hnd : configTags.Nodup := by decide
  rw [show updateConfigTree m t = configTags.foldl (fun t n => cfgRootPass m n t) t from rfl,
    cfgFold_eq_simul m configTags hnd t]
  cases t with
  | el tg a x cs => rfl

/-- Counterexample to C2 as frozen: on a config document whose root element
itself has tag `username` and text `alice`, with mapping `{alice: bob}`,
`update_config` leaves the text `alice` (the claim requires `bob`). -/
theorem claim_C2_cex :
    textOf (updateConfigTree mapAB exRootUser) = s2l "alice" ∧
      s2l "alice" ≠ s2l "bob" := by
  exact ⟨rfl, by decide⟩

/-- C1 (amended): the first `update_entities` loop — one `findall` pass per
listed attribute name — is exactly the specification's single traversal: on
every element strictly below the document root, each attribute in the fixed
name list is rewritten by applying, for every entry `old -> new` of the map
in iteration order, the rule "exactly equal to `old` ⇒ replaced wholesale by
`new`, otherwise every ` old ` token ⇒ ` new `".  (The root element itself is
never rewritten, because `findall('.//*[@n]')` matches only descendants.) -/
theorem claim_C1 (m : UserNameMap) (t : XTree) :
    updateEntitiesAttrPass m t = specEntitiesAttrRewrite m t :=
  namesRootPass_eq_simulRoot (applyMapVal m) attrNames (by decide) t

/-- Counterexample to C1 as frozen: on an entities document whose root
element itself carries the listed attribute `author` with value `alice`,
with mapping `{alice: bob}`, `update_entities` leaves the value `alice`
(the claim requires `bob`). -/
theorem claim_C1_cex :
    attrOf (updateEntitiesTree mapAB exRootAuthor) (s2l "author") = some (s2l "alice") ∧
      s2l "alice" ≠ s2l "bob" := by
  exact ⟨rfl, by decide⟩

/-! ### Quote protection (update_entities lines 194-207 and 212) -/

theorem mem_quoteEnc_ne (v : Str) (c : Char) (h : c ∈ quoteEnc v) : c ≠ qC := by
  unfold quoteEnc at h
  rw [replaceAll_single_single] at h
  rcases List.mem_map.mp h with ⟨d, _, hd⟩
  by_cases hdq : d = qC
  · rw [if_pos hdq] at hd
    rw [← hd]
    decide
  · rw [if_neg hdq] at hd
    rw [← hd]
    exact hdq

theorem lookA_updAttrsSimul (f : Str → Str) (ns : List Str) (n : Str)
    (hn : n ∈ ns) :
    ∀ a, lookA (updAttrsSimul f ns a) n = (lookA a n).map f := by
  intro a
  induction a with
  | nil => rfl
  | cons kv a ih =>
    show lookA ((if kv.1 ∈ ns then (kv.1, f kv.2) else kv) :: updAttrsSimul f ns a) n = _
    by_cases h1 : kv.1 = n
    · rw [if_pos (h1 ▸ hn)]
      show (if kv.1 = n then some (f kv.2) else lookA (updAttrsSimul f ns a) n) = _
      rw [if_pos h1]
      show _ = (if kv.1 = n then some kv.2 else lookA a n).map f
      rw [if_pos h1]
      rfl
    · have hfst : (if kv.1 ∈ ns then (kv.1, f kv.2) else kv).1 = kv.1 := by
        by_cases h2 : kv.1 ∈ ns <;> simp [h2]
      show (if (if kv.1 ∈ ns then (kv.1, f kv.2) else kv).1 = n
            then some (if kv.1 ∈ ns then (kv.1, f kv.2) else kv).2
            else lookA (updAttrsSimul f ns a) n) = _
      rw [hfst, if_neg h1]
      show _ = (if kv.1 = n then some kv.2 else lookA a n).map f
      rw [if_neg h1]
      exact ih

mutual
theorem quoteFreeN : ∀ t : XTree, ∀ e ∈ nodesOf (simulNode quoteEnc protNames t),
    ∀ n ∈ protNames, ∀ v, attrOf e n = some v → qC ∉ v
  | .el tg a x cs => by
    intro e he n hn v hv
    simp only [simulNode, nodesOf, List.mem_cons] at he
    rcases he with he | he
    · subst he
      unfold attrOf attrsOf at hv
      rw [lookA_updAttrsSimul quoteEnc protNames n hn a] at hv
      rcases Option.map_eq_some'.mp hv with ⟨v0, _, hv0⟩
      intro hq
      exact (mem_quoteEnc_ne v0 qC (hv0 ▸ hq)) rfl
    · exact quoteFreeF cs e he n hn v hv
theorem quoteFreeF : ∀ cs : XForest, ∀ e ∈ nodesForest (simulForest quoteEnc protNames cs),
    ∀ n ∈ protNames, ∀ v, attrOf e n = some v → qC ∉ v
  | .fnil => by
    intro e he
    simp [simulForest, nodesForest] at he
  | .fcons t ts => by
    intro e he n hn v hv
    simp only [simulForest, nodesForest, List.mem_append] at he
    rcases he with he | he
    · exact quoteFreeN t e he n hn v hv
    · exact quoteFreeF ts e he n hn v hv
end

/-- C4 (amended): after `update_entities`, (a) no attribute in the
twelve-name protected list of any element strictly below the document root
contains a raw single quote — every one was replaced by sentinel C at line
207 — and (b) on any value free of sentinel C, the sentinel-C decode of line
212 turns the quote-protection encoding into exactly the replacement of
every single quote by the literal entity text `&apos;`, and leaves no raw
single quote behind.  (The root element's own attributes are not protected,
because `findall('.//*[@n]')` matches only descendants.) -/
theorem claim_C4 (m : UserNameMap) (t : XTree) :
    (∀ e ∈ descNodes (updateEntitiesTree m t),
      ∀ n ∈ protNames, ∀ v, attrOf e n = some v → qC ∉ v) ∧
    (∀ v : Str, sentC ∉ v →
      replaceAll [sentC] aposE (quoteEnc v) = replaceAll [qC] aposE v ∧
        qC ∉ replaceAll [sentC] aposE (quoteEnc v)) := by
  constructor
  · intro e he n hn v hv
    have hnd : protNames.Nodup := by decide
    have hq : updateEntitiesTree m t =
        simulRoot quoteEnc protNames (updateEntitiesAttrPass m t) := by
      unfold updateEntitiesTree quotePassTree
      exact namesRootPass_eq_simulRoot quoteEnc protNames hnd (updateEntitiesAttrPass m t)
    rw [hq] at he
    cases hu : updateEntitiesAttrPass m t with
    | el tg a x cs =>
      rw [hu] at he
      simp only [simulRoot, descNodes] at he
      exact quoteFreeF cs e he n hn v hv
  · intro v hs
    have henc : quoteEnc v = v.map (fun c => if c = qC then sentC else c) :=
      replaceAll_single_single qC sentC v
    have hdec :
        replaceAll [sentC] aposE (quoteEnc v) =
          expand (fun c => if c = qC then aposE else [c]) v := by
      rw [henc, replaceAll_single, expand_map]
      apply expand_congr
      intro c hc
      by_cases h1 : c = qC
      · rw [if_pos h1, if_pos (by decide), if_pos h1]
      · rw [if_neg h1, if_neg (fun h : c = sentC => hs (h ▸ hc)), if_neg h1]
    constructor
    · rw [hdec, replaceAll_single]
    · rw [hdec]
      intro hq
      rcases mem_expand _ v qC hq with ⟨d, hd, hqd⟩
      by_cases h1 : d = qC
      · rw [if_pos h1] at hqd
        have : qC ∉ aposE := by decide
        exact this hqd
      · rw [if_neg h1] at hqd
        simp only [List.mem_singleton] at hqd
        exact h1 hqd.symm

/-- Witness for C4, part (b), at the concrete protected value `a'b`. -/
theorem claim_C4_witness :
    replaceAll [sentC] aposE (quoteEnc qVal) = replaceAll [qC] aposE qVal ∧
      qC ∉ replaceAll [sentC] aposE (quoteEnc qVal) :=
  (claim_C4 [] (XTree.el (s2l "r") [] [] XForest.fnil)).2 qVal (by decide)

/-- Counterexample to C4 as frozen: on a document whose root element itself
carries the protected attribute `description` with value `a'b`, the single
quote survives the whole of `update_entities` as a raw quote (the claim
requires the entity text `&apos;`). -/
theorem claim_C4_cex :
    attrOf (updateEntitiesTree [] exRootDesc) (s2l "description") = some qVal ∧
      qC ∈ qVal := by
  exact ⟨rfl, by decide⟩

/-! ### Identity-mapping behaviour (claim C5) -/

theorem updAttrsSimul_comp (f g : Str → Str) (ns : List Str) (a : List (Str × Str)) :
    updAttrsSimul g ns (updAttrsSimul f ns a) = updAttrsSimul (fun v => g (f v)) ns a := by
  unfold updAttrsSimul
  induction a with
  | nil => rfl
  | cons kv a ih =>
    simp only [List.map_cons, ih]
    congr 1
    by_cases h : kv.1 ∈ ns
    · rw [if_pos h]
      show (if kv.1 ∈ ns then _ else _) = _
      rw [if_pos h, if_pos h]
    · rw [if_neg h, if_neg h, if_neg h]

mutual
theorem simulNode_comp (f g : Str → Str) (ns : List Str) :
    ∀ t, simulNode g ns (simulNode f ns t) = simulNode (fun v => g (f v)) ns t
  | .el tg a x cs => by
    simp only [simulNode, updAttrsSimul_comp f g ns a, simulForest_comp f g ns cs]
theorem simulForest_comp (f g : Str → Str) (ns : List Str) :
    ∀ cs, simulForest g ns (simulForest f ns cs) = simulForest (fun v => g (f v)) ns cs
  | .fnil => rfl
  | .fcons t ts => by
    simp only [simulForest, simulNode_comp f g ns t, simulForest_comp f g ns ts]
end

theorem updAttrsSimul_ident (f : Str → Str) (ns : List Str)
    (h : ∀ v, f v = v) (a : List (Str × Str)) : updAttrsSimul f ns a = a := by
  unfold updAttrsSimul
  induction a with
  | nil => rfl
  | cons kv a ih =>
    simp only [List.map_cons, ih]
    congr 1
    by_cases hm : kv.1 ∈ ns
    · rw [if_pos hm, h]
    · rw [if_neg hm]

mutual
theorem simulNode_ident (f : Str → Str) (ns : List Str) (h : ∀ v, f v = v) :
    ∀ t, simulNode f ns t = t
  | .el tg a x cs => by
    simp only [simulNode, updAttrsSimul_ident f ns h a, simulForest_ident f ns h cs]
theorem simulForest_ident (f : Str → Str) (ns : List Str) (h : ∀ v, f v = v) :
    ∀ cs, simulForest f ns cs = cs
  | .fnil => rfl
  | .fcons t ts => by
    simp only [simulForest, simulNode_ident f ns h t, simulForest_ident f ns h ts]
end

theorem simulRoot_ident (f : Str → Str) (ns : List Str) (h : ∀ v, f v = v)
    (t : XTree) : simulRoot f ns t = t := by
  cases t with
  | el tg a x cs => simp only [simulRoot, simulForest_ident f ns h cs]

/-- Rewriting an attribute value with the identity mapping changes nothing:
the exact-match branch writes back the same name, and the token branch
replaces ` old ` by ` old `. -/
theorem applyMapVal_idOf (m : UserNameMap) (v : Str) : applyMapVal (idOf m) v = v := by
  induction m with
  | nil => rfl
  | cons p m ih =>
    show applyMapVal (idOf m)
        (if v = p.1 then p.1 else replaceAll (spTok p.1) (spTok p.1) v) = v
    by_cases h : v = p.1
    · rw [if_pos h, ← h, ih]
    · rw [if_neg h,
        replaceAll_self (spTok p.1) (by simp [spTok]) v.length v (le_refl _), ih]

theorem quoteEnc_quoteEnc (v : Str) : quoteEnc (quoteEnc v) = quoteEnc v := by
  unfold quoteEnc
  rw [replaceAll_single_single, replaceAll_single_single, List.map_map]
  apply List.map_congr_left
  intro c _
  show (if (if c = qC then sentC else c) = qC then sentC else if c = qC then sentC else c)
      = (if c = qC then sentC else c)
  by_cases h : c = qC
  · rw [if_pos h, if_neg (show ¬ (sentC = qC) by decide)]
  · rw [if_neg h, if_neg h]

theorem cfgText_idOf (m : UserNameMap) (x : Str) : cfgText (idOf m) x = x := by
  unfold cfgText
  suffices h : lookupU (idOf m) x = none ∨ lookupU (idOf m) x = some x by
    rcases h with h | h <;> rw [h]
  induction m with
  | nil => left; rfl
  | cons p m ih =>
    show (if p.1 = x then some p.1 else lookupU (idOf m) x) = none ∨
      (if p.1 = x then some p.1 else lookupU (idOf m) x) = some x
    by_cases hp : p.1 = x
    · right; rw [if_pos hp, hp]
    · rw [if_neg hp]; exact ih

mutual
theorem cfgSimulNode_ident (m : UserNameMap) (tags : List Str)
    (h : ∀ x, cfgText m x = x) : ∀ t, cfgSimulNode m tags t = t
  | .el tg a x cs => by
    simp only [cfgSimulNode, cfgSimulForest_ident m tags h cs]
    by_cases hm : tg ∈ tags
    · rw [if_pos hm, h]
    · rw [if_neg hm]
theorem cfgSimulForest_ident (m : UserNameMap) (tags : List Str)
    (h : ∀ x, cfgText m x = x) : ∀ cs, cfgSimulForest m tags cs = cs
  | .fnil => rfl
  | .fcons t ts => by
    simp only [cfgSimulForest, cfgSimulNode_ident m tags h t,
      cfgSimulForest_ident m tags h ts]
end

/-- C5: rewriting a document with a mapping `m` and then rewriting the
result with the identity mapping (each key of `m` mapped to itself) gives
the same result as rewriting with `m` alone, for both the config rewrite
and the entities rewrite. -/
theorem claim_C5 (m : UserNameMap) (D : XTree) :
    updateConfigTree (idOf m) (updateConfigTree m D) = updateConfigTree m D ∧
    updateEntitiesTree (idOf m) (updateEntitiesTree m D) = updateEntitiesTree m D := by
  have hid : ∀ u : XTree, updateConfigTree (idOf m) u = u := by
    intro u
    have hnd : configTags.Nodup := by decide
    show configTags.foldl (fun t n => cfgRootPass (idOf m) n t) u = u
    rw [cfgFold_eq_simul (idOf m) configTags hnd u]
    cases u with
    | el tg a x cs =>
      simp only [cfgSimulRoot,
        cfgSimulForest_ident (idOf m) configTags (cfgText_idOf m) cs]
  constructor
  · exact hid (updateConfigTree m D)
  · have hnd18 : attrNames.Nodup := by decide
    have hnd12 : protNames.Nodup := by decide
    -- the second attribute pass with the identity mapping is the identity
    have hattr : ∀ u : XTree, updateEntitiesAttrPass (idOf m) u = u := by
      intro u
      unfold updateEntitiesAttrPass
      rw [namesRootPass_eq_simulRoot (applyMapVal (idOf m)) attrNames hnd18 u]
      cases u with
      | el tg a x cs =>
        simp only [simulRoot,
          simulForest_ident (applyMapVal (idOf m)) attrNames (applyMapVal_idOf m) cs]
    -- a second quote-protection pass is absorbed by the first
    have hquote : ∀ u : XTree, quotePassTree (quotePassTree u) = quotePassTree u := by
      intro u
      unfold quotePassTree
      rw [namesRootPass_eq_simulRoot quoteEnc protNames hnd12 u,
        namesRootPass_eq_simulRoot quoteEnc protNames hnd12
          (simulRoot quoteEnc protNames u)]
      cases u with
      | el tg a x cs =>
        simp only [simulRoot, simulForest_comp quoteEnc quoteEnc protNames cs]
        have hfun : (fun v => quoteEnc (quoteEnc v)) = quoteEnc :=
          funext quoteEnc_quoteEnc
        rw [hfun]
    show quotePassTree (updateEntitiesAttrPass (idOf m) (updateEntitiesTree m D)) = _
    rw [hattr (updateEntitiesTree m D)]
    show quotePassTree (quotePassTree (updateEntitiesAttrPass m D)) = _
    rw [hquote (updateEntitiesAttrPass m D)]
    rfl

/-- C6 (amended): the username-rewrite passes leave unmapped content
unchanged — a config element text that matches no key is kept, and an
entities attribute value that neither equals a key nor contains any ` old `
token is kept.  (The separate quote-protection pass may still rewrite single
quotes inside protected attributes, and the cosmetic pass may still insert
newlines after comments, which is what refutes the claim as frozen.) -/
theorem claim_C6 (m : UserNameMap) :
    (∀ x, lookupU m x = none → cfgText m x = x) ∧
    (∀ v, (∀ p ∈ m, v ≠ p.1 ∧ hasSub (spTok p.1) v = false) →
      applyMapVal m v = v) := by
  constructor
  · intro x h
    unfold cfgText
    rw [h]
  · intro v
    induction m with
    | nil => intro _; rfl
    | cons p m ih =>
      intro h
      have hp := h p (by simp)
      show applyMapVal m
        (if v = p.1 then p.2 else replaceAll (spTok p.1) (spTok p.2) v) = v
      rw [if_neg hp.1, replaceAll_not_occ _ _ v hp.2]
      exact ih (fun q hq => h q (by simp [hq]))

/-- Witness for C6 at the unmapped texts `carol` and `carol dave` under the
mapping `{alice: bob}`. -/
theorem claim_C6_witness :
    cfgText mapAB (s2l "carol") = s2l "carol" ∧
      applyMapVal mapAB (s2l "carol dave") = s2l "carol dave" :=
  ⟨(claim_C6 mapAB).1 (s2l "carol") (by decide),
   (claim_C6 mapAB).2 (s2l "carol dave") (by decide)⟩

/-- Counterexample to C6 as frozen: with the empty mapping (no key matches
anything), `update_entities` still rewrites the protected attribute value
`a'b` of an element below the root into `a☤b` (serialized as `a&apos;b`), so
content that matches no mapped username is not reproduced byte-for-byte. -/
theorem claim_C6_cex :
    descAttr (updateEntitiesTree [] exKidDesc) (s2l "description") =
        some ['a', sentC, 'b'] ∧
      descAttr exKidDesc (s2l "description") = some qVal ∧
        (['a', sentC, 'b'] : Str) ≠ qVal := by
  exact ⟨rfl, rfl, by decide⟩

/-! ### File-system lemmas -/

theorem getF_setF_eq (fs : FS) (p : Str) (v : FVal) : getF (setF fs p v) p = some v := by
  show (if p = p then some v else getF (eraseF fs p) p) = some v
  rw [if_pos rfl]

theorem getF_eraseF_ne (fs : FS) (p q : Str) (h : q ≠ p) :
    getF (eraseF fs p) q = getF fs q := by
  induction fs with
  | nil => rfl
  | cons e fs ih =>
    show getF (if e.1 = p then eraseF fs p else e :: eraseF fs p) q = _
    by_cases he : e.1 = p
    · rw [if_pos he]
      show _ = (if e.1 = q then some e.2 else getF fs q)
      rw [if_neg (fun h1 : e.1 = q => h (h1 ▸ he))]
      exact ih
    · rw [if_neg he]
      show (if e.1 = q then some e.2 else getF (eraseF fs p) q) =
        (if e.1 = q then some e.2 else getF fs q)
      by_cases hq : e.1 = q
      · rw [if_pos hq, if_pos hq]
      · rw [if_neg hq, if_neg hq, ih]

theorem getF_setF_ne (fs : FS) (p : Str) (v : FVal) (q : Str) (h : q ≠ p) :
    getF (setF fs p v) q = getF fs q := by
  show (if p = q then some v else getF (eraseF fs p) q) = _
  rw [if_neg (fun h1 => h h1.symm), getF_eraseF_ne fs p q h]

theorem isPre_self_app (x t : Str) : isPre x (x ++ t) = true := by
  induction x with
  | nil => rfl
  | cons a x ih =>
    show (if a = a then isPre x (x ++ t) else false) = true
    rw [if_pos rfl, ih]

theorem ne_of_isPre (a q r : Str) (hq : isPre a q = true) (hr : isPre a r = false) :
    q ≠ r := by
  intro h
  rw [h] at hq
  rw [hq] at hr
  exact absurd hr (by simp)

theorem dropAppLeft (x t : Str) : List.drop x.length (x ++ t) = t := by
  induction x with
  | nil => rfl
  | cons a x ih => simp [ih]

theorem appRightNe (w x y : Str) (h : x ≠ y) : w ++ x ≠ w ++ y := by
  intro hc
  apply h
  induction w with
  | nil => exact hc
  | cons a w ih => exact ih (List.cons_injective hc)

/-- C10: with debug mode off, `_prepare_output_path` returns its argument
unchanged for every path, so the config rewrite step of `massage` reads the
workspace `config.xml` and writes the rewritten document back to the very
same path, overwriting it in place: afterwards that path holds exactly the
rewritten document, and every other path is untouched. -/
theorem claim_C10 (m : UserNameMap) (w : Str) (fs : FS) (t : XTree)
    (h : getF fs (configPath w) = some (FVal.xmlF t)) :
    (∀ path : Str, prepOut false path = path) ∧
    updateConfigFS m (configPath w) (prepOut false (configPath w)) fs =
      .ok (setF fs (configPath w) (FVal.xmlF (updateConfigTree m t))) ∧
    getF (setF fs (configPath w) (FVal.xmlF (updateConfigTree m t))) (configPath w) =
      some (FVal.xmlF (updateConfigTree m t)) ∧
    (∀ q, q ≠ configPath w →
      getF (setF fs (configPath w) (FVal.xmlF (updateConfigTree m t))) q = getF fs q) := by
  refine ⟨fun path => rfl, ?_, getF_setF_eq _ _ _, fun q hq => getF_setF_ne _ _ _ q hq⟩
  show updateConfigFS m (configPath w) (configPath w) fs = _
  unfold updateConfigFS
  rw [h]

/-- Witness for C10 at a concrete workspace and document. -/
theorem claim_C10_witness :
    (∀ path : Str, prepOut false path = path) ∧
    updateConfigFS mapAB (configPath (s2l "/tmp/ws")) (prepOut false (configPath (s2l "/tmp/ws")))
        [(configPath (s2l "/tmp/ws"), FVal.xmlF exRootUser)] =
      .ok (setF [(configPath (s2l "/tmp/ws"), FVal.xmlF exRootUser)] (configPath (s2l "/tmp/ws"))
        (FVal.xmlF (updateConfigTree mapAB exRootUser))) ∧
    getF (setF [(configPath (s2l "/tmp/ws"), FVal.xmlF exRootUser)] (configPath (s2l "/tmp/ws"))
        (FVal.xmlF (updateConfigTree mapAB exRootUser))) (configPath (s2l "/tmp/ws")) =
      some (FVal.xmlF (updateConfigTree mapAB exRootUser)) ∧
    (∀ q, q ≠ configPath (s2l "/tmp/ws") →
      getF (setF [(configPath (s2l "/tmp/ws"), FVal.xmlF exRootUser)] (configPath (s2l "/tmp/ws"))
        (FVal.xmlF (updateConfigTree mapAB exRootUser))) q =
        getF [(configPath (s2l "/tmp/ws"), FVal.xmlF exRootUser)] q) :=
  claim_C10 mapAB (s2l "/tmp/ws") [(configPath (s2l "/tmp/ws"), FVal.xmlF exRootUser)]
    exRootUser (by rw [getF, if_pos rfl])

/-- C9: on an input archive whose nested data archive is absent, `unpack`
aborts with the format error (surfaced by the zip layer) right after the
outer extraction, and `massage` propagates it: the workspace holds only the
extracted original members, the rewritten outputs were never produced, no
new archive was created, and the input archive file is untouched. -/
theorem claim_C9 (m : UserNameMap) (w p b : Str) (ct : XTree)
    (hp : p = b ++ s2l ".zip")
    (hwp : isPre (w ++ s2l "/") p = false)
    (hwo : isPre (w ++ s2l "/") (b ++ s2l ".fixed_users.zip") = false) :
    ∃ fs' : FS,
      unpackM w p [(p, FVal.zipA [(s2l "config.xml", FVal.xmlF ct)])] =
        .error (MErr.archiveFormat, fs') ∧
      massageM m false w p [(p, FVal.zipA [(s2l "config.xml", FVal.xmlF ct)])] =
        .error (MErr.archiveFormat, fs') ∧
      getF fs' p = some (FVal.zipA [(s2l "config.xml", FVal.xmlF ct)]) ∧
      getF fs' (configPath w) = some (FVal.xmlF ct) ∧
      getF fs' (b ++ s2l ".fixed_users.zip") = none := by
  have e1 : (w ++ s2l "/") ++ s2l "config.xml" = configPath w := by
    rw [List.append_assoc]; rfl
  have e2 : (w ++ s2l "/") ++ s2l "data/data.zip" = dataZipPath w := by
    rw [List.append_assoc]; rfl
  have t1 : isPre (w ++ s2l "/") (configPath w) = true := by
    rw [← e1]; exact isPre_self_app _ _
  have t2 : isPre (w ++ s2l "/") (dataZipPath w) = true := by
    rw [← e2]; exact isPre_self_app _ _
  have hcp : configPath w ≠ p := ne_of_isPre _ _ _ t1 hwp
  have hdp : dataZipPath w ≠ p := ne_of_isPre _ _ _ t2 hwp
  have hcd : configPath w ≠ dataZipPath w := appRightNe w _ _ (by decide)
  have hco : configPath w ≠ b ++ s2l ".fixed_users.zip" := ne_of_isPre _ _ _ t1 hwo
  have hpo : p ≠ b ++ s2l ".fixed_users.zip" := by
    rw [hp]; exact appRightNe b _ _ (by decide)
  have c1 : s2l "/" ++ s2l "config.xml" = s2l "/config.xml" := rfl
  have c2 : s2l "/" ++ s2l "data/data.zip" = s2l "/data/data.zip" := rfl
  have econf : w ++ s2l "/config.xml" = configPath w := rfl
  have edz : w ++ s2l "/data/data.zip" = dataZipPath w := rfl
  have hunp : unpackM w p [(p, FVal.zipA [(s2l "config.xml", FVal.xmlF ct)])] =
      .error (MErr.archiveFormat,
        [(configPath w, FVal.xmlF ct),
         (p, FVal.zipA [(s2l "config.xml", FVal.xmlF ct)])]) := by
    unfold unpackM
    simp [getF, extractAll, setF, eraseF, c1, c2, econf, edz,
      hcp, Ne.symm hcp, hcd, Ne.symm hcd, hdp, Ne.symm hdp]
  refine ⟨[(configPath w, FVal.xmlF ct), (p, FVal.zipA [(s2l "config.xml", FVal.xmlF ct)])],
    hunp, ?_, ?_, ?_, ?_⟩
  · unfold massageM
    rw [hunp]
  · simp [getF, hcp, Ne.symm hcp]
  · simp [getF]
  · simp [getF, hco, hpo]

/-- Witness for C9 at a concrete malformed archive (no nested data archive). -/
theorem claim_C9_witness :
    ∃ fs' : FS,
      unpackM (s2l "/tmp/ws") (s2l "/e/x.zip")
          [(s2l "/e/x.zip", FVal.zipA [(s2l "config.xml", FVal.xmlF exRootUser)])] =
        .error (MErr.archiveFormat, fs') ∧
      massageM mapAB false (s2l "/tmp/ws") (s2l "/e/x.zip")
          [(s2l "/e/x.zip", FVal.zipA [(s2l "config.xml", FVal.xmlF exRootUser)])] =
        .error (MErr.archiveFormat, fs') ∧
      getF fs' (s2l "/e/x.zip") =
        some (FVal.zipA [(s2l "config.xml", FVal.xmlF exRootUser)]) ∧
      getF fs' (configPath (s2l "/tmp/ws")) = some (FVal.xmlF exRootUser) ∧
      getF fs' (s2l "/e/x" ++ s2l ".fixed_users.zip") = none :=
  claim_C9 mapAB (s2l "/tmp/ws") (s2l "/e/x.zip") (s2l "/e/x") exRootUser
    (by decide) (by decide) (by decide)

/-- C7: in normal (non-debug) mode on a well-formed export archive, massage
succeeds and produces a new archive whose path is the input path with its
`.zip` extension replaced by `.fixed_users.zip`, whose members keep the
original outer layout — the nested `data.zip` holding `activeobjects.xml`
unchanged and `entities.xml` rewritten, and `config.xml` rewritten — while
the original input archive file is byte-for-byte untouched. -/
theorem claim_C7 (m : UserNameMap) (w p b : Str) (ct et : XTree) (ao : FVal)
    (hp : p = b ++ s2l ".zip")
    (hbz : hasSub (s2l ".zip") b = false)
    (hwp : isPre (w ++ s2l "/") p = false)
    (hwo : isPre (w ++ s2l "/") (b ++ s2l ".fixed_users.zip") = false) :
    ∃ fs1 : FS,
      massageM m false w p
          [(p, FVal.zipA
            [(s2l "config.xml", FVal.xmlF ct),
             (s2l "data/data.zip", FVal.zipA
               [(s2l "activeobjects.xml", ao), (s2l "entities.xml", FVal.xmlF et)])])] =
        .ok fs1 ∧
      getF fs1 (b ++ s2l ".fixed_users.zip") =
        some (FVal.zipA
          [(s2l "data/data.zip", FVal.zipA
             [(s2l "activeobjects.xml", ao),
              (s2l "entities.xml", FVal.xmlF (updateEntitiesTree m et))]),
           (s2l "config.xml", FVal.xmlF (updateConfigTree m ct))]) ∧
      getF fs1 p =
        some (FVal.zipA
          [(s2l "config.xml", FVal.xmlF ct),
           (s2l "data/data.zip", FVal.zipA
             [(s2l "activeobjects.xml", ao), (s2l "entities.xml", FVal.xmlF et)])]) := by
  -- path concatenation normal forms
  have c1 : s2l "/" ++ s2l "config.xml" = s2l "/config.xml" := rfl
  have c2 : s2l "/" ++ s2l "data/data.zip" = s2l "/data/data.zip" := rfl
  have c3 : s2l "/" ++ s2l "activeobjects.xml" = s2l "/activeobjects.xml" := rfl
  have c4 : s2l "/data" ++ s2l "/activeobjects.xml" = s2l "/data/activeobjects.xml" := rfl
  have c5 : s2l "/" ++ s2l "entities.xml" = s2l "/entities.xml" := rfl
  have c6 : s2l "/data" ++ s2l "/entities.xml" = s2l "/data/entities.xml" := rfl
  have econf : w ++ s2l "/config.xml" = configPath w := rfl
  have edz : w ++ s2l "/data/data.zip" = dataZipPath w := rfl
  have eobj : w ++ s2l "/data/activeobjects.xml" = objectsPath w := rfl
  have eent : w ++ s2l "/data/entities.xml" = entitiesPath w := rfl
  have e1 : (w ++ s2l "/") ++ s2l "config.xml" = configPath w := by
    rw [List.append_assoc]; rfl
  have e2 : (w ++ s2l "/") ++ s2l "data/data.zip" = dataZipPath w := by
    rw [List.append_assoc]; rfl
  have e3 : (w ++ s2l "/") ++ s2l "data/activeobjects.xml" = objectsPath w := by
    rw [List.append_assoc]; rfl
  have e4 : (w ++ s2l "/") ++ s2l "data/entities.xml" = entitiesPath w := by
    rw [List.append_assoc]; rfl
  -- workspace paths are under the workspace; the input and output are not
  have t1 : isPre (w ++ s2l "/") (configPath w) = true := by
    rw [← e1]; exact isPre_self_app _ _
  have t2 : isPre (w ++ s2l "/") (dataZipPath w) = true := by
    rw [← e2]; exact isPre_self_app _ _
  have t3 : isPre (w ++ s2l "/") (objectsPath w) = true := by
    rw [← e3]; exact isPre_self_app _ _
  have t4 : isPre (w ++ s2l "/") (entitiesPath w) = true := by
    rw [← e4]; exact isPre_self_app _ _
  have d1 : List.drop (w ++ s2l "/").length (configPath w) = s2l "config.xml" := by
    rw [← e1]; exact dropAppLeft _ _
  have d2 : List.drop (w ++ s2l "/").length (dataZipPath w) = s2l "data/data.zip" := by
    rw [← e2]; exact dropAppLeft _ _
  have d1' : List.drop (w.length + (s2l "/").length) (configPath w) = s2l "config.xml" := by
    rw [← List.length_append]; exact d1
  have d2' : List.drop (w.length + (s2l "/").length) (dataZipPath w) = s2l "data/data.zip" := by
    rw [← List.length_append]; exact d2
  -- pairwise distinctness of the paths in play
  have hcp : configPath w ≠ p := ne_of_isPre _ _ _ t1 hwp
  have hdp : dataZipPath w ≠ p := ne_of_isPre _ _ _ t2 hwp
  have hap : objectsPath w ≠ p := ne_of_isPre _ _ _ t3 hwp
  have hep : entitiesPath w ≠ p := ne_of_isPre _ _ _ t4 hwp
  have hcd : configPath w ≠ dataZipPath w := appRightNe w _ _ (by decide)
  have hca : configPath w ≠ objectsPath w := appRightNe w _ _ (by decide)
  have hce : configPath w ≠ entitiesPath w := appRightNe w _ _ (by decide)
  have hda : dataZipPath w ≠ objectsPath w := appRightNe w _ _ (by decide)
  have hde : dataZipPath w ≠ entitiesPath w := appRightNe w _ _ (by decide)
  have hae : objectsPath w ≠ entitiesPath w := appRightNe w _ _ (by decide)
  have hco : configPath w ≠ b ++ s2l ".fixed_users.zip" := ne_of_isPre _ _ _ t1 hwo
  have hdo : dataZipPath w ≠ b ++ s2l ".fixed_users.zip" := ne_of_isPre _ _ _ t2 hwo
  have hpo : p ≠ b ++ s2l ".fixed_users.zip" := by
    rw [hp]; exact appRightNe b _ _ (by decide)
  -- the derived output archive name
  have hout : replaceAll (s2l ".zip") (s2l ".fixed_users") p = b ++ s2l ".fixed_users" := by
    rw [hp, replaceAll_append_left (s2l ".zip") (s2l ".fixed_users") b (s2l ".zip")
      (by decide) hbz (by decide)]
    rfl
  have hout2 : (b ++ s2l ".fixed_users") ++ s2l ".zip" = b ++ s2l ".fixed_users.zip" := by
    rw [List.append_assoc]; rfl
  have hprep : ∀ q : Str, prepOut false q = q := fun _ => rfl
  -- step 1: unpack
  have h1 : unpackM w p
      [(p, FVal.zipA
        [(s2l "config.xml", FVal.xmlF ct),
         (s2l "data/data.zip", FVal.zipA
           [(s2l "activeobjects.xml", ao), (s2l "entities.xml", FVal.xmlF et)])])] =
      .ok [(entitiesPath w, FVal.xmlF et), (objectsPath w, ao),
           (dataZipPath w, FVal.zipA
             [(s2l "activeobjects.xml", ao), (s2l "entities.xml", FVal.xmlF et)]),
           (configPath w, FVal.xmlF ct),
           (p, FVal.zipA
             [(s2l "config.xml", FVal.xmlF ct),
              (s2l "data/data.zip", FVal.zipA
                [(s2l "activeobjects.xml", ao), (s2l "entities.xml", FVal.xmlF et)])])] := by
    unfold unpackM
    simp [getF, extractAll, setF, eraseF, c1, c2, c3, c4, c5, c6,
      econf, edz, eobj, eent,
      hcp, Ne.symm hcp, hdp, Ne.symm hdp, hap, Ne.symm hap, hep, Ne.symm hep,
      hcd, Ne.symm hcd, hca, Ne.symm hca, hce, Ne.symm hce,
      hda, Ne.symm hda, hde, Ne.symm hde, hae, Ne.symm hae]
  -- step 2: config rewrite in place
  have h2 : updateConfigFS m (configPath w) (configPath w)
      [(entitiesPath w, FVal.xmlF et), (objectsPath w, ao),
       (dataZipPath w, FVal.zipA
         [(s2l "activeobjects.xml", ao), (s2l "entities.xml", FVal.xmlF et)]),
       (configPath w, FVal.xmlF ct),
       (p, FVal.zipA
         [(s2l "config.xml", FVal.xmlF ct),
          (s2l "data/data.zip", FVal.zipA
            [(s2l "activeobjects.xml", ao), (s2l "entities.xml", FVal.xmlF et)])])] =
      .ok [(configPath w, FVal.xmlF (updateConfigTree m ct)),
           (entitiesPath w, FVal.xmlF et), (objectsPath w, ao),
           (dataZipPath w, FVal.zipA
             [(s2l "activeobjects.xml", ao), (s2l "entities.xml", FVal.xmlF et)]),
           (p, FVal.zipA
             [(s2l "config.xml", FVal.xmlF ct),
              (s2l "data/data.zip", FVal.zipA
                [(s2l "activeobjects.xml", ao), (s2l "entities.xml", FVal.xmlF et)])])] := by
    unfold updateConfigFS
    simp [getF, setF, eraseF,
      hcp, Ne.symm hcp, hcd, Ne.symm hcd, hca, Ne.symm hca, hce, Ne.symm hce]
  -- step 3: entities rewrite in place
  have h3 : updateEntitiesFS m (entitiesPath w) (entitiesPath w)
      [(configPath w, FVal.xmlF (updateConfigTree m ct)),
       (entitiesPath w, FVal.xmlF et), (objectsPath w, ao),
       (dataZipPath w, FVal.zipA
         [(s2l "activeobjects.xml", ao), (s2l "entities.xml", FVal.xmlF et)]),
       (p, FVal.zipA
         [(s2l "config.xml", FVal.xmlF ct),
          (s2l "data/data.zip", FVal.zipA
            [(s2l "activeobjects.xml", ao), (s2l "entities.xml", FVal.xmlF et)])])] =
      .ok [(entitiesPath w, FVal.xmlF (updateEntitiesTree m et)),
           (configPath w, FVal.xmlF (updateConfigTree m ct)), (objectsPath w, ao),
           (dataZipPath w, FVal.zipA
             [(s2l "activeobjects.xml", ao), (s2l "entities.xml", FVal.xmlF et)]),
           (p, FVal.zipA
             [(s2l "config.xml", FVal.xmlF ct),
              (s2l "data/data.zip", FVal.zipA
                [(s2l "activeobjects.xml", ao), (s2l "entities.xml", FVal.xmlF et)])])] := by
    unfold updateEntitiesFS
    simp [getF, setF, eraseF,
      hep, Ne.symm hep, hce, Ne.symm hce, hde, Ne.symm hde, hae, Ne.symm hae]
  -- step 4: pack
  have h4 : packM false w p
      [(entitiesPath w, FVal.xmlF (updateEntitiesTree m et)),
       (configPath w, FVal.xmlF (updateConfigTree m ct)), (objectsPath w, ao),
       (dataZipPath w, FVal.zipA
         [(s2l "activeobjects.xml", ao), (s2l "entities.xml", FVal.xmlF et)]),
       (p, FVal.zipA
         [(s2l "config.xml", FVal.xmlF ct),
          (s2l "data/data.zip", FVal.zipA
            [(s2l "activeobjects.xml", ao), (s2l "entities.xml", FVal.xmlF et)])])] =
      .ok [(b ++ s2l ".fixed_users.zip", FVal.zipA
             [(s2l "data/data.zip", FVal.zipA
                [(s2l "activeobjects.xml", ao),
                 (s2l "entities.xml", FVal.xmlF (updateEntitiesTree m et))]),
              (s2l "config.xml", FVal.xmlF (updateConfigTree m ct))]),
           (dataZipPath w, FVal.zipA
             [(s2l "activeobjects.xml", ao),
              (s2l "entities.xml", FVal.xmlF (updateEntitiesTree m et))]),
           (configPath w, FVal.xmlF (updateConfigTree m ct)),
           (p, FVal.zipA
             [(s2l "config.xml", FVal.xmlF ct),
              (s2l "data/data.zip", FVal.zipA
                [(s2l "activeobjects.xml", ao), (s2l "entities.xml", FVal.xmlF et)])])] := by
    unfold packM
    simp [getF, setF, eraseF, prepOut, makeArchiveMembers, hout, hout2,
      t1, t2, hwp, d1, d2, d1', d2',
      hep, Ne.symm hep, hce, Ne.symm hce, hde, Ne.symm hde, hae, Ne.symm hae,
      hap, Ne.symm hap, hca, Ne.symm hca, hda, Ne.symm hda,
      hcd, Ne.symm hcd, hcp, Ne.symm hcp, hdp, Ne.symm hdp,
      hco, Ne.symm hco, hdo, Ne.symm hdo, hpo, Ne.symm hpo]
  refine ⟨[(b ++ s2l ".fixed_users.zip", FVal.zipA
             [(s2l "data/data.zip", FVal.zipA
                [(s2l "activeobjects.xml", ao),
                 (s2l "entities.xml", FVal.xmlF (updateEntitiesTree m et))]),
              (s2l "config.xml", FVal.xmlF (updateConfigTree m ct))]),
           (dataZipPath w, FVal.zipA
             [(s2l "activeobjects.xml", ao),
              (s2l "entities.xml", FVal.xmlF (updateEntitiesTree m et))]),
           (configPath w, FVal.xmlF (updateConfigTree m ct)),
           (p, FVal.zipA
             [(s2l "config.xml", FVal.xmlF ct),
              (s2l "data/data.zip", FVal.zipA
                [(s2l "activeobjects.xml", ao), (s2l "entities.xml", FVal.xmlF et)])])],
    ?_, ?_, ?_⟩
  · simp only [massageM, h1, hprep, h2, h3, h4, Bool.false_eq_true, if_false]
  · simp [getF]
  · simp [getF, Ne.symm hpo, hco, hcp, Ne.symm hcp, hdp, Ne.symm hdp, hdo]

/-- Witness for C7 at a concrete well-formed export archive. -/
theorem claim_C7_witness :
    ∃ fs1 : FS,
      massageM mapAB false (s2l "/tmp/ws") (s2l "/e/x.zip")
          [(s2l "/e/x.zip", FVal.zipA
            [(s2l "config.xml", FVal.xmlF exRootUser),
             (s2l "data/data.zip", FVal.zipA
               [(s2l "activeobjects.xml", FVal.txt (s2l "ao")),
                (s2l "entities.xml", FVal.xmlF exKidDesc)])])] =
        .ok fs1 ∧
      getF fs1 (s2l "/e/x" ++ s2l ".fixed_users.zip") =
        some (FVal.zipA
          [(s2l "data/data.zip", FVal.zipA
             [(s2l "activeobjects.xml", FVal.txt (s2l "ao")),
              (s2l "entities.xml", FVal.xmlF (updateEntitiesTree mapAB exKidDesc))]),
           (s2l "config.xml", FVal.xmlF (updateConfigTree mapAB exRootUser))]) ∧
      getF fs1 (s2l "/e/x.zip") =
        some (FVal.zipA
          [(s2l "config.xml", FVal.xmlF exRootUser),
           (s2l "data/data.zip", FVal.zipA
             [(s2l "activeobjects.xml", FVal.txt (s2l "ao")),
              (s2l "entities.xml", FVal.xmlF exKidDesc)])]) :=
  claim_C7 mapAB (s2l "/tmp/ws") (s2l "/e/x.zip") (s2l "/e/x") exRootUser exKidDesc
    (FVal.txt (s2l "ao")) (by decide) (by decide) (by decide) (by decide)

/-- C8: with debug mode on, `massage` writes the rewritten documents to
`config.proc.xml` and `data/entities.proc.xml` in the workspace, keeps the
untouched originals alongside them, produces no `.fixed_users.zip` archive,
leaves the input archive file untouched, and `__exit__` retains the
workspace. -/
theorem claim_C8 (m : UserNameMap) (w p b : Str) (ct et : XTree) (ao : FVal)
    (hp : p = b ++ s2l ".zip")
    (hwp : isPre (w ++ s2l "/") p = false)
    (hwo : isPre (w ++ s2l "/") (b ++ s2l ".fixed_users.zip") = false)
    (hwx : hasSub (s2l ".xml") w = false) :
    ∃ fs1 : FS,
      massageM m true w p
          [(p, FVal.zipA
            [(s2l "config.xml", FVal.xmlF ct),
             (s2l "data/data.zip", FVal.zipA
               [(s2l "activeobjects.xml", ao), (s2l "entities.xml", FVal.xmlF et)])])] =
        .ok fs1 ∧
      getF fs1 (w ++ s2l "/config.proc.xml") = some (FVal.xmlF (updateConfigTree m ct)) ∧
      getF fs1 (w ++ s2l "/data/entities.proc.xml") =
        some (FVal.xmlF (updateEntitiesTree m et)) ∧
      getF fs1 (configPath w) = some (FVal.xmlF ct) ∧
      getF fs1 (entitiesPath w) = some (FVal.xmlF et) ∧
      getF fs1 p =
        some (FVal.zipA
          [(s2l "config.xml", FVal.xmlF ct),
           (s2l "data/data.zip", FVal.zipA
             [(s2l "activeobjects.xml", ao), (s2l "entities.xml", FVal.xmlF et)])]) ∧
      getF fs1 (b ++ s2l ".fixed_users.zip") = none ∧
      exitM true w fs1 = fs1 := by
  have c1 : s2l "/" ++ s2l "config.xml" = s2l "/config.xml" := rfl
  have c2 : s2l "/" ++ s2l "data/data.zip" = s2l "/data/data.zip" := rfl
  have c3 : s2l "/" ++ s2l "activeobjects.xml" = s2l "/activeobjects.xml" := rfl
  have c4 : s2l "/data" ++ s2l "/activeobjects.xml" = s2l "/data/activeobjects.xml" := rfl
  have c5 : s2l "/" ++ s2l "entities.xml" = s2l "/entities.xml" := rfl
  have c6 : s2l "/data" ++ s2l "/entities.xml" = s2l "/data/entities.xml" := rfl
  have econf : w ++ s2l "/config.xml" = configPath w := rfl
  have edz : w ++ s2l "/data/data.zip" = dataZipPath w := rfl
  have eobj : w ++ s2l "/data/activeobjects.xml" = objectsPath w := rfl
  have eent : w ++ s2l "/data/entities.xml" = entitiesPath w := rfl
  have e1 : (w ++ s2l "/") ++ s2l "config.xml" = configPath w := by
    rw [List.append_assoc]; rfl
  have e2 : (w ++ s2l "/") ++ s2l "data/data.zip" = dataZipPath w := by
    rw [List.append_assoc]; rfl
  have e3 : (w ++ s2l "/") ++ s2l "data/activeobjects.xml" = objectsPath w := by
    rw [List.append_assoc]; rfl
  have e4 : (w ++ s2l "/") ++ s2l "data/entities.xml" = entitiesPath w := by
    rw [List.append_assoc]; rfl
  have e5 : (w ++ s2l "/") ++ s2l "config.proc.xml" = w ++ s2l "/config.proc.xml" := by
    rw [List.append_assoc]; rfl
  have e6 : (w ++ s2l "/") ++ s2l "data/entities.proc.xml" =
      w ++ s2l "/data/entities.proc.xml" := by
    rw [List.append_assoc]; rfl
  have t1 : isPre (w ++ s2l "/") (configPath w) = true := by
    rw [← e1]; exact isPre_self_app _ _
  have t2 : isPre (w ++ s2l "/") (dataZipPath w) = true := by
    rw [← e2]; exact isPre_self_app _ _
  have t3 : isPre (w ++ s2l "/") (objectsPath w) = true := by
    rw [← e3]; exact isPre_self_app _ _
  have t4 : isPre (w ++ s2l "/") (entitiesPath w) = true := by
    rw [← e4]; exact isPre_self_app _ _
  have t5 : isPre (w ++ s2l "/") (w ++ s2l "/config.proc.xml") = true := by
    rw [← e5]; exact isPre_self_app _ _
  have t6 : isPre (w ++ s2l "/") (w ++ s2l "/data/entities.proc.xml") = true := by
    rw [← e6]; exact isPre_self_app _ _
  have hcp : configPath w ≠ p := ne_of_isPre _ _ _ t1 hwp
  have hdp : dataZipPath w ≠ p := ne_of_isPre _ _ _ t2 hwp
  have hap : objectsPath w ≠ p := ne_of_isPre _ _ _ t3 hwp
  have hep : entitiesPath w ≠ p := ne_of_isPre _ _ _ t4 hwp
  have hxp : w ++ s2l "/config.proc.xml" ≠ p := ne_of_isPre _ _ _ t5 hwp
  have hyp2 : w ++ s2l "/data/entities.proc.xml" ≠ p := ne_of_isPre _ _ _ t6 hwp
  have hcd : configPath w ≠ dataZipPath w := appRightNe w _ _ (by decide)
  have hca : configPath w ≠ objectsPath w := appRightNe w _ _ (by decide)
  have hce : configPath w ≠ entitiesPath w := appRightNe w _ _ (by decide)
  have hda : dataZipPath w ≠ objectsPath w := appRightNe w _ _ (by decide)
  have hde : dataZipPath w ≠ entitiesPath w := appRightNe w _ _ (by decide)
  have hae : objectsPath w ≠ entitiesPath w := appRightNe w _ _ (by decide)
  have hxc : w ++ s2l "/config.proc.xml" ≠ configPath w := appRightNe w _ _ (by decide)
  have hxd : w ++ s2l "/config.proc.xml" ≠ dataZipPath w := appRightNe w _ _ (by decide)
  have hxa : w ++ s2l "/config.proc.xml" ≠ objectsPath w := appRightNe w _ _ (by decide)
  have hxe : w ++ s2l "/config.proc.xml" ≠ entitiesPath w := appRightNe w _ _ (by decide)
  have hyc : w ++ s2l "/data/entities.proc.xml" ≠ configPath w := appRightNe w _ _ (by decide)
  have hyd : w ++ s2l "/data/entities.proc.xml" ≠ dataZipPath w := appRightNe w _ _ (by decide)
  have hya : w ++ s2l "/data/entities.proc.xml" ≠ objectsPath w := appRightNe w _ _ (by decide)
  have hye : w ++ s2l "/data/entities.proc.xml" ≠ entitiesPath w := appRightNe w _ _ (by decide)
  have hxy : w ++ s2l "/config.proc.xml" ≠ w ++ s2l "/data/entities.proc.xml" :=
    appRightNe w _ _ (by decide)
  have hco : configPath w ≠ b ++ s2l ".fixed_users.zip" := ne_of_isPre _ _ _ t1 hwo
  have hdo : dataZipPath w ≠ b ++ s2l ".fixed_users.zip" := ne_of_isPre _ _ _ t2 hwo
  have hao : objectsPath w ≠ b ++ s2l ".fixed_users.zip" := ne_of_isPre _ _ _ t3 hwo
  have heo : entitiesPath w ≠ b ++ s2l ".fixed_users.zip" := ne_of_isPre _ _ _ t4 hwo
  have hxo : w ++ s2l "/config.proc.xml" ≠ b ++ s2l ".fixed_users.zip" :=
    ne_of_isPre _ _ _ t5 hwo
  have hyo : w ++ s2l "/data/entities.proc.xml" ≠ b ++ s2l ".fixed_users.zip" :=
    ne_of_isPre _ _ _ t6 hwo
  have hpo : p ≠ b ++ s2l ".fixed_users.zip" := by
    rw [hp]; exact appRightNe b _ _ (by decide)
  have hprep1 : prepOut true (configPath w) = w ++ s2l "/config.proc.xml" := by
    show replaceAll (s2l ".xml") (s2l ".proc.xml") (w ++ s2l "/config.xml") = _
    rw [replaceAll_append_left (s2l ".xml") (s2l ".proc.xml") w (s2l "/config.xml")
      (by decide) hwx (by decide)]
    rfl
  have hprep2 : prepOut true (entitiesPath w) = w ++ s2l "/data/entities.proc.xml" := by
    show replaceAll (s2l ".xml") (s2l ".proc.xml") (w ++ s2l "/data/entities.xml") = _
    rw [replaceAll_append_left (s2l ".xml") (s2l ".proc.xml") w (s2l "/data/entities.xml")
      (by decide) hwx (by decide)]
    rfl
  have h1 : unpackM w p
      [(p, FVal.zipA
        [(s2l "config.xml", FVal.xmlF ct),
         (s2l "data/data.zip", FVal.zipA
           [(s2l "activeobjects.xml", ao), (s2l "entities.xml", FVal.xmlF et)])])] =
      .ok [(entitiesPath w, FVal.xmlF et), (objectsPath w, ao),
           (dataZipPath w, FVal.zipA
             [(s2l "activeobjects.xml", ao), (s2l "entities.xml", FVal.xmlF et)]),
           (configPath w, FVal.xmlF ct),
           (p, FVal.zipA
             [(s2l "config.xml", FVal.xmlF ct),
              (s2l "data/data.zip", FVal.zipA
                [(s2l "activeobjects.xml", ao), (s2l "entities.xml", FVal.xmlF et)])])] := by
    unfold unpackM
    simp [getF, extractAll, setF, eraseF, c1, c2, c3, c4, c5, c6,
      econf, edz, eobj, eent,
      hcp, Ne.symm hcp, hdp, Ne.symm hdp, hap, Ne.symm hap, hep, Ne.symm hep,
      hcd, Ne.symm hcd, hca, Ne.symm hca, hce, Ne.symm hce,
      hda, Ne.symm hda, hde, Ne.symm hde, hae, Ne.symm hae]
  have h2 : updateConfigFS m (configPath w) (w ++ s2l "/config.proc.xml")
      [(entitiesPath w, FVal.xmlF et), (objectsPath w, ao),
       (dataZipPath w, FVal.zipA
         [(s2l "activeobjects.xml", ao), (s2l "entities.xml", FVal.xmlF et)]),
       (configPath w, FVal.xmlF ct),
       (p, FVal.zipA
         [(s2l "config.xml", FVal.xmlF ct),
          (s2l "data/data.zip", FVal.zipA
            [(s2l "activeobjects.xml", ao), (s2l "entities.xml", FVal.xmlF et)])])] =
      .ok [(w ++ s2l "/config.proc.xml", FVal.xmlF (updateConfigTree m ct)),
           (entitiesPath w, FVal.xmlF et), (objectsPath w, ao),
           (dataZipPath w, FVal.zipA
             [(s2l "activeobjects.xml", ao), (s2l "entities.xml", FVal.xmlF et)]),
           (configPath w, FVal.xmlF ct),
           (p, FVal.zipA
             [(s2l "config.xml", FVal.xmlF ct),
              (s2l "data/data.zip", FVal.zipA
                [(s2l "activeobjects.xml", ao), (s2l "entities.xml", FVal.xmlF et)])])] := by
    unfold updateConfigFS
    simp [getF, setF, eraseF,
      hcp, Ne.symm hcp, hcd, Ne.symm hcd, hca, Ne.symm hca, hce, Ne.symm hce,
      hxc, Ne.symm hxc, hxd, Ne.symm hxd, hxa, Ne.symm hxa, hxe, Ne.symm hxe,
      hxp, Ne.symm hxp]
  have h3 : updateEntitiesFS m (entitiesPath w) (w ++ s2l "/data/entities.proc.xml")
      [(w ++ s2l "/config.proc.xml", FVal.xmlF (updateConfigTree m ct)),
       (entitiesPath w, FVal.xmlF et), (objectsPath w, ao),
       (dataZipPath w, FVal.zipA
         [(s2l "activeobjects.xml", ao), (s2l "entities.xml", FVal.xmlF et)]),
       (configPath w, FVal.xmlF ct),
       (p, FVal.zipA
         [(s2l "config.xml", FVal.xmlF ct),
          (s2l "data/data.zip", FVal.zipA
            [(s2l "activeobjects.xml", ao), (s2l "entities.xml", FVal.xmlF et)])])] =
      .ok [(w ++ s2l "/data/entities.proc.xml", FVal.xmlF (updateEntitiesTree m et)),
           (w ++ s2l "/config.proc.xml", FVal.xmlF (updateConfigTree m ct)),
           (entitiesPath w, FVal.xmlF et), (objectsPath w, ao),
           (dataZipPath w, FVal.zipA
             [(s2l "activeobjects.xml", ao), (s2l "entities.xml", FVal.xmlF et)]),
           (configPath w, FVal.xmlF ct),
           (p, FVal.zipA
             [(s2l "config.xml", FVal.xmlF ct),
              (s2l "data/data.zip", FVal.zipA
                [(s2l "activeobjects.xml", ao), (s2l "entities.xml", FVal.xmlF et)])])] := by
    unfold updateEntitiesFS
    simp [getF, setF, eraseF,
      hep, Ne.symm hep, hce, Ne.symm hce, hde, Ne.symm hde, hae, Ne.symm hae,
      hxe, Ne.symm hxe, hyc, Ne.symm hyc, hyd, Ne.symm hyd, hya, Ne.symm hya,
      hye, Ne.symm hye, hxy, Ne.symm hxy, hyp2, Ne.symm hyp2]
  refine ⟨[(w ++ s2l "/data/entities.proc.xml", FVal.xmlF (updateEntitiesTree m et)),
           (w ++ s2l "/config.proc.xml", FVal.xmlF (updateConfigTree m ct)),
           (entitiesPath w, FVal.xmlF et), (objectsPath w, ao),
           (dataZipPath w, FVal.zipA
             [(s2l "activeobjects.xml", ao), (s2l "entities.xml", FVal.xmlF et)]),
           (configPath w, FVal.xmlF ct),
           (p, FVal.zipA
             [(s2l "config.xml", FVal.xmlF ct),
              (s2l "data/data.zip", FVal.zipA
                [(s2l "activeobjects.xml", ao), (s2l "entities.xml", FVal.xmlF et)])])],
    ?_, ?_, ?_, ?_, ?_, ?_, ?_, ?_⟩
  · simp only [massageM, h1, hprep1, hprep2, h2, h3, if_pos]
  · simp [getF, hxy, Ne.symm hxy]
  · simp [getF]
  · simp [getF, hyc, Ne.symm hyc, hxc, Ne.symm hxc, hce, Ne.symm hce,
      hca, Ne.symm hca, hcd, Ne.symm hcd]
  · simp [getF, hye, Ne.symm hye, hxe, Ne.symm hxe]
  · simp [getF, hyp2, Ne.symm hyp2, hxp, Ne.symm hxp, hep, Ne.symm hep,
      hap, Ne.symm hap, hdp, Ne.symm hdp, hcp, Ne.symm hcp]
  · simp [getF, hyo, hxo, heo, hao, hdo, hco, hpo]
  · rfl

/-- Witness for C8 at a concrete export archive in debug mode. -/
theorem claim_C8_witness :
    ∃ fs1 : FS,
      massageM mapAB true (s2l "/tmp/ws") (s2l "/e/x.zip")
          [(s2l "/e/x.zip", FVal.zipA
            [(s2l "config.xml", FVal.xmlF exRootUser),
             (s2l "data/data.zip", FVal.zipA
               [(s2l "activeobjects.xml", FVal.txt (s2l "ao")),
                (s2l "entities.xml", FVal.xmlF exKidDesc)])])] =
        .ok fs1 ∧
      getF fs1 (s2l "/tmp/ws" ++ s2l "/config.proc.xml") =
        some (FVal.xmlF (updateConfigTree mapAB exRootUser)) ∧
      getF fs1 (s2l "/tmp/ws" ++ s2l "/data/entities.proc.xml") =
        some (FVal.xmlF (updateEntitiesTree mapAB exKidDesc)) ∧
      getF fs1 (configPath (s2l "/tmp/ws")) = some (FVal.xmlF exRootUser) ∧
      getF fs1 (entitiesPath (s2l "/tmp/ws")) = some (FVal.xmlF exKidDesc) ∧
      getF fs1 (s2l "/e/x.zip") =
        some (FVal.zipA
          [(s2l "config.xml", FVal.xmlF exRootUser),
           (s2l "data/data.zip", FVal.zipA
             [(s2l "activeobjects.xml", FVal.txt (s2l "ao")),
              (s2l "entities.xml", FVal.xmlF exKidDesc)])]) ∧
      getF fs1 (s2l "/e/x" ++ s2l ".fixed_users.zip") = none ∧
      exitM true (s2l "/tmp/ws") fs1 = fs1 :=
  claim_C8 mapAB (s2l "/tmp/ws") (s2l "/e/x.zip") (s2l "/e/x") exRootUser exKidDesc
    (FVal.txt (s2l "ao")) (by decide) (by decide) (by decide) (by decide)
